import Mathlib

/-!
Shallow embedding of the nv-switcher search core (query parser, scorer,
min-heap, inverted-index provider) together with theorems settling the
specification claims about it.

Modelling conventions:
* JavaScript strings are modelled as lists of Unicode scalar values
  (`JStr := List Char`); `String.prototype.length` is the list length.
  All content exercised by concrete theorems below is in the Basic
  Multilingual Plane, where one scalar value is one UTF-16 code unit.
* JavaScript numbers that carry scores and times are modelled as real
  numbers (`ℝ`); integer quantities (counts, indices, epoch milliseconds)
  are modelled as `ℕ` / `ℤ`.
* `Map` and `Set` are modelled as insertion-ordered association lists /
  lists without duplicates, matching ECMAScript iteration order.
* `Date.now()` is threaded through as an explicit parameter `now`.
-/

set_option maxHeartbeats 3200000
set_option maxRecDepth 4000

namespace NvSwitcher

/-- JavaScript string: a list of Unicode scalar values. -/
abbrev JStr := List Char

/-- Helper: the string obtained from a Lean string literal. -/
def js (s : String) : JStr := s.toList

/-- Single-character lowercase mapping of ECMAScript
`String.prototype.toLowerCase`.  The Unicode default case conversion has
exactly one unconditional one-to-many lowercase mapping: U+0130 (LATIN
CAPITAL LETTER I WITH DOT ABOVE) maps to U+0069 U+0307.  All other
characters map to a single character; that single-character mapping is
modelled by `Char.toLower` (exact on the ASCII range, which is the only
range whose lowercase *values* the theorems below depend on — elsewhere
only the fact that the mapping is single-character matters). -/
def jsLowerChar (c : Char) : List Char :=
  if c = 'İ' then ['i', '̇'] else [c.toLower]

/-- ECMAScript `String.prototype.toLowerCase`. -/
def jsToLowerCase (s : JStr) : JStr :=
  (s.map jsLowerChar).flatten

/-- Single-character uppercase used only for the parser's
case-insensitive comparison of a token with `'OR'`. -/
def jsUpperChar (c : Char) : Char := c.toUpper

/-- ECMAScript `String.prototype.toUpperCase`, restricted to the
single-character mapping (sufficient for comparisons against `"OR"`:
every one-to-many uppercase expansion produces a string other than
`"OR"`, exactly like the single-character model does). -/
def jsToUpperCase (s : JStr) : JStr := s.map jsUpperChar

/-- Canonical decomposition (NFD) of one character.  Modelled from the
host's Unicode tables restricted to the Latin-1 precomposed letters; the
identity elsewhere.  No theorem below depends on the diacritic-folding
branch of `normalizeText` beyond these characters. -/
def jsNFDChar (c : Char) : List Char :=
  if c = 'à' then ['a', '̀'] else
  if c = 'á' then ['a', '́'] else
  if c = 'â' then ['a', '̂'] else
  if c = 'ä' then ['a', '̈'] else
  if c = 'è' then ['e', '̀'] else
  if c = 'é' then ['e', '́'] else
  if c = 'ê' then ['e', '̂'] else
  if c = 'ë' then ['e', '̈'] else
  if c = 'ì' then ['i', '̀'] else
  if c = 'í' then ['i', '́'] else
  if c = 'î' then ['i', '̂'] else
  if c = 'ï' then ['i', '̈'] else
  if c = 'ò' then ['o', '̀'] else
  if c = 'ó' then ['o', '́'] else
  if c = 'ô' then ['o', '̂'] else
  if c = 'ö' then ['o', '̈'] else
  if c = 'ù' then ['u', '̀'] else
  if c = 'ú' then ['u', '́'] else
  if c = 'û' then ['u', '̂'] else
  if c = 'ü' then ['u', '̈'] else
  if c = 'ñ' then ['n', '̃'] else
  if c = 'ç' then ['c', '̧'] else
  [c]

/-- ECMAScript `String.prototype.normalize('NFD')` under the same
restriction as `jsNFDChar`. -/
def jsNFD (s : JStr) : JStr := (s.map jsNFDChar).flatten

/-- Combining-mark test for the source's `/[̀-ͯ]/g` strip. -/
def isCombiningMark (c : Char) : Bool :=
  0x300 ≤ c.val.toNat ∧ c.val.toNat ≤ 0x36f

/-- Source `normalizeText` (src/search/normalize.ts): lowercase always;
when `diacritics = false` additionally decompose to NFD and strip the
combining marks U+0300–U+036F. -/
def normalizeText (str : JStr) (diacritics : Bool) : JStr :=
  let normalized := jsToLowerCase str
  if !diacritics then
    (jsNFD normalized).filter (fun c => !isCombiningMark c)
  else
    normalized

/-- Word-character test of the source's `/[\p{Letter}\p{Number}]+/gu`
tokenizer regex.  Modelled from the host's Unicode `Letter`/`Number`
categories restricted to ASCII alphanumerics, the Latin-1 letters and
Latin Extended-A (the only ranges the theorems below tokenize);
combining marks are category `Mark` and hence not word characters. -/
def isWordChar (c : Char) : Bool :=
  c.isAlphanum ∨
  (0xC0 ≤ c.val.toNat ∧ c.val.toNat ≤ 0xFF ∧ c ≠ '×' ∧ c ≠ '÷') ∨
  (0x100 ≤ c.val.toNat ∧ c.val.toNat ≤ 0x17F)

/-- Maximal runs of word characters, in document order (the behaviour of
`normalized.match(/[\p{Letter}\p{Number}]+/gu) || []`). -/
def wordRunsAux : JStr → JStr → List JStr
  | [], acc => if acc = [] then [] else [acc.reverse]
  | c :: cs, acc =>
    if isWordChar c then wordRunsAux cs (c :: acc)
    else if acc = [] then wordRunsAux cs []
    else acc.reverse :: wordRunsAux cs []

/-- Source `tokenizeWords`: normalize the whole input, then split it into
maximal runs of Unicode letters/numbers. -/
def tokenizeWords (input : JStr) (diacritics : Bool := true) : List JStr :=
  wordRunsAux (normalizeText input diacritics) []

/-- First index at which `needle` occurs as a contiguous substring of the
haystack (ECMAScript `String.prototype.indexOf`, with `none` for -1). -/
def indexOfSub (needle : JStr) : JStr → Option ℕ
  | [] => if needle = [] then some 0 else none
  | c :: cs =>
    if needle.isPrefixOf (c :: cs) then some 0
    else (indexOfSub needle cs).map (· + 1)

/-- ECMAScript `String.prototype.includes`. -/
def containsSub (needle hay : JStr) : Bool :=
  (indexOfSub needle hay).isSome

/-- Number of non-overlapping left-to-right occurrences of the non-empty
pattern in `s` — the length of `s.match(new RegExp(escaped, 'g'))`.
Structurally recursive on a fuel argument (every step consumes at least
one character, so `s.length` fuel is never exhausted). -/
def countOccAux (pat : JStr) : ℕ → JStr → ℕ
  | 0, _ => 0
  | _ + 1, [] => 0
  | fuel + 1, c :: cs =>
    if pat.isPrefixOf (c :: cs) then
      1 + countOccAux pat fuel (List.drop (pat.length - 1) cs)
    else
      countOccAux pat fuel cs

/-- Occurrence count of `str.match(new RegExp(escapeRegex(pat), 'g'))`:
for a non-empty literal pattern the non-overlapping occurrence count; an
empty pattern compiles to an empty regex, which matches at every
position (`length + 1` matches). -/
def countOccurrences (pat s : JStr) : ℕ :=
  if pat = [] then s.length + 1 else countOccAux pat s.length s

/-- Join a list of strings with single spaces (ECMAScript
`Array.prototype.join(' ')`). -/
def joinSp (l : List JStr) : JStr :=
  (l.intersperse [' ']).flatten

/-- Searchable fields of a document. -/
inductive Field : Type
  | title | path | tags | headings | symbols | body
deriving DecidableEq, Repr

/-- Document record (src/search/types.ts `Doc`).  `mtime` is epoch
milliseconds. -/
structure Doc : Type where
  id : JStr
  title : JStr
  path : List JStr
  tags : List JStr
  headings : List JStr
  symbols : List JStr
  body : JStr
  mtime : ℤ
  size : ℤ
deriving DecidableEq, Repr

/-- Query filters (src/search/types.ts `QueryFilters`).  The source uses
absent/undefined list fields; absence is modelled by the empty list
(the source only ever tests `filters.x?.length`, i.e. non-emptiness, and
only ever appends to a non-empty list, so the two representations are
observationally identical). -/
structure QueryFilters : Type where
  tag : List JStr := []
  path : List JStr := []
  infolder : List JStr := []
  field : Option Field := none
deriving DecidableEq, Repr

/-- Regex literal specification `{source, flags}`. -/
structure RegexSpec : Type where
  source : JStr
  flags : JStr
deriving DecidableEq, Repr

/-- Query mode. -/
inductive QueryMode : Type
  | files | commands
deriving DecidableEq, Repr

/-- Parsed query (src/search/types.ts `ParsedQuery`). -/
structure ParsedQuery : Type where
  raw : JStr
  mode : QueryMode
  terms : List JStr
  phrases : List JStr
  excludes : List JStr
  orGroups : List (List JStr)
  filters : QueryFilters
  regex : Option RegexSpec := none
deriving DecidableEq, Repr

/-- Match span within a named field (`endIdx` is the source's exclusive
`end` index). -/
structure MatchSpan : Type where
  field : Field
  start : ℕ
  endIdx : ℕ
deriving DecidableEq, Repr

/-- Search result `{id, score, matchSpans}`. -/
structure SearchResult : Type where
  id : JStr
  score : ℝ
  matchSpans : List MatchSpan

/-- Field weights of the scorer configuration. -/
structure ScorerWeights : Type where
  title : ℝ
  headings : ℝ
  path : ℝ
  tags : ℝ
  symbols : ℝ
  body : ℝ
  recency : ℝ

/-- Scorer configuration (src/search/scorer.ts `ScorerConfig`). -/
structure ScorerConfig : Type where
  weights : ScorerWeights
  diacritics : Bool
  recencyHalfLife : ℝ

/-- Weight lookup `config.weights[field] || 0` (the record is total, and
`0 || 0 = 0`, so the lookup is the plain projection). -/
def weightOf (w : ScorerWeights) : Field → ℝ
  | .title => w.title
  | .headings => w.headings
  | .path => w.path
  | .tags => w.tags
  | .symbols => w.symbols
  | .body => w.body

/-- Default scorer configuration (src/search/scorer.ts). -/
noncomputable def DEFAULT_SCORER_CONFIG : ScorerConfig where
  weights :=
    { title := 4.0, headings := 2.0, path := 1.5, tags := 1.5
      symbols := 1.5, body := 1.0, recency := 0.5 }
  diacritics := true
  recencyHalfLife := 30

/-- Result of scoring one document. -/
structure ScoredDoc : Type where
  doc : Doc
  score : ℝ
  matchSpans : List MatchSpan

/-- Damerau–Levenshtein distance (optimal string alignment variant of
the source), capped at `maxDistance + 1`, with the source's early exit
when the length difference already exceeds `maxDistance`. -/
def damerauLevenshtein (s1 s2 : JStr) (maxDistance : ℕ := 2) : ℕ :=
  let len1 := s1.length
  let len2 := s2.length
  if max len1 len2 - min len1 len2 > maxDistance then maxDistance + 1
  else Id.run do
    let a1 := s1.toArray
    let a2 := s2.toArray
    let mut matrix : Array (Array ℕ) :=
      Array.mkArray (len1 + 1) (Array.mkArray (len2 + 1) 0)
    for i in [0:len1 + 1] do
      matrix := matrix.set! i ((matrix.getD i #[]).set! 0 i)
    for j in [0:len2 + 1] do
      matrix := matrix.set! 0 ((matrix.getD 0 #[]).set! j j)
    for i in [1:len1 + 1] do
      for j in [1:len2 + 1] do
        let cost : ℕ := if a1.getD (i - 1) 'a' = a2.getD (j - 1) 'a' then 0 else 1
        let get (x y : ℕ) : ℕ := (matrix.getD x #[]).getD y 0
        let mut v := min (min (get (i - 1) j + 1) (get i (j - 1) + 1))
          (get (i - 1) (j - 1) + cost)
        if i > 1 ∧ j > 1 ∧ a1.getD (i - 1) 'a' = a2.getD (j - 2) 'a' ∧
            a1.getD (i - 2) 'a' = a2.getD (j - 1) 'a' then
          v := min v (get (i - 2) (j - 2) + cost)
        matrix := matrix.set! i ((matrix.getD i #[]).set! j v)
    return min ((matrix.getD len1 #[]).getD len2 0) (maxDistance + 1)

/-- Source `scoreToken`: prefix match scores 1.0, otherwise a
distance-based score for Damerau–Levenshtein distance at most 2. -/
noncomputable def scoreToken (query token : JStr) : ℝ :=
  if query.isPrefixOf token then 1.0
  else
    let distance := damerauLevenshtein query token 2
    if distance > 2 then 0
    else
      let maxLength := max query.length token.length
      max 0 (1 - (distance : ℝ) / (maxLength : ℝ))

/-- Result of scoring one field. -/
structure FieldScore : Type where
  score : ℝ
  spans : List MatchSpan
  field : Field

/-- Fold of the source's inner token loop: the best token score for one
term, with the span of the best-scoring token (located by `indexOf` in
the normalized field text). -/
noncomputable def bestTokenFor (normalizedTerm normalizedField : JStr)
    (fieldTokens : List JStr) : ℝ × Option MatchSpan :=
  fieldTokens.foldl
    (fun (acc : ℝ × Option MatchSpan) token =>
      let tokenScore := scoreToken normalizedTerm token
      if tokenScore > acc.1 then
        match indexOfSub token normalizedField with
        | some tokenIndex =>
          (tokenScore, some { field := .body, start := tokenIndex,
                              endIdx := tokenIndex + token.length })
        | none => (tokenScore, acc.2)
      else acc)
    (0, none)

/-- Source `scoreField`: average over the query terms of the best token
score in this field, together with the collected best-match spans.  The
`field` component is the placeholder `'body'`, overwritten by the
caller. -/
noncomputable def scoreField (fieldValue : JStr ⊕ List JStr)
    (terms : List JStr) (config : ScorerConfig) : FieldScore :=
  if terms = [] then { score := 0, spans := [], field := .body }
  else
    let textValue := match fieldValue with
      | .inl s => s
      | .inr l => joinSp l
    let normalizedField := normalizeText textValue config.diacritics
    let fieldTokens := tokenizeWords normalizedField config.diacritics
    if fieldTokens = [] then { score := 0, spans := [], field := .body }
    else
      let results := terms.map (fun term =>
        bestTokenFor (normalizeText term config.diacritics) normalizedField
          fieldTokens)
      let termScores := results.map Prod.fst
      let spans := results.filterMap Prod.snd
      let avgScore :=
        if termScores = [] then 0
        else termScores.sum / (termScores.length : ℝ)
      { score := avgScore, spans := spans, field := .body }

/-- Source `scorePhrases`: 0.25 per occurrence of each normalized phrase
in the normalized title and body. -/
noncomputable def scorePhrases (doc : Doc) (phrases : List JStr)
    (config : ScorerConfig) : ℝ :=
  if phrases = [] then 0
  else
    let titleText := normalizeText doc.title config.diacritics
    let bodyText := normalizeText doc.body config.diacritics
    phrases.foldl
      (fun bonusScore phrase =>
        let normalizedPhrase := normalizeText phrase config.diacritics
        let titleMatches := countOccurrences normalizedPhrase titleText
        let bodyMatches := countOccurrences normalizedPhrase bodyText
        bonusScore + ((titleMatches + bodyMatches : ℕ) : ℝ) * 0.25)
      0

/-- Source `computeRecencyBonus`: exponential decay with configurable
half-life, clamped to [0, 0.5].  `ageDays` is `(now − mtime)` divided by
the milliseconds of a day, and `Math.LN2` is `Real.log 2`. -/
noncomputable def computeRecencyBonus (now mtime : ℤ)
    (halfLifeDays : ℝ) : ℝ :=
  min
    (max (0.5 * Real.exp
      (-(((now - mtime : ℤ) : ℝ) / (1000 * 60 * 60 * 24)) *
        Real.log 2 / halfLifeDays)) 0)
    0.5

/-- Source `isExcluded`: true when any normalized exclude term occurs as
a substring of the space-joined normalized searchable fields. -/
def isExcluded (doc : Doc) (excludes : List JStr)
    (config : ScorerConfig) : Bool :=
  if excludes = [] then false
  else
    let searchableText := joinSp
      [doc.title, joinSp doc.path, joinSp doc.tags, joinSp doc.headings,
       joinSp doc.symbols, doc.body]
    let normalizedText := normalizeText searchableText config.diacritics
    excludes.any (fun ex =>
      containsSub (normalizeText ex config.diacritics) normalizedText)

/-- The `fieldResults` object of source `scoreDoc` (lines 393–400):
one field score per searchable field, in `Object.entries` order. -/
noncomputable def fieldResultsOf (doc : Doc) (query : ParsedQuery)
    (config : ScorerConfig) : List (Field × FieldScore) :=
  [(.title, scoreField (.inl doc.title) query.terms config),
   (.headings, scoreField (.inr doc.headings) query.terms config),
   (.path, scoreField (.inr doc.path) query.terms config),
   (.tags, scoreField (.inr doc.tags) query.terms config),
   (.symbols, scoreField (.inr doc.symbols) query.terms config),
   (.body, scoreField (.inl doc.body) query.terms config)]

/-- The weight-and-accumulate loop of source `scoreDoc` (lines
403–411): the weighted sum of the field scores together with the
collected spans re-labelled with their fields. -/
noncomputable def scoreFieldsAcc (doc : Doc) (query : ParsedQuery)
    (config : ScorerConfig) : ℝ × List MatchSpan :=
  (fieldResultsOf doc query config).foldl
    (fun (acc : ℝ × List MatchSpan) fr =>
      (acc.1 + weightOf config.weights fr.1 * fr.2.score,
       acc.2 ++ fr.2.spans.map (fun sp => { sp with field := fr.1 })))
    (0, [])

/-- Source `scoreDoc`: weighted field scores plus phrase bonus plus
weighted recency bonus; `none` when the document is excluded.  `now` is
the explicit `Date.now()` parameter. -/
noncomputable def scoreDoc (now : ℤ) (doc : Doc) (query : ParsedQuery)
    (config : ScorerConfig) : Option ScoredDoc :=
  if isExcluded doc query.excludes config then none
  else
    some { doc := doc
           score := (scoreFieldsAcc doc query config).1 +
             scorePhrases doc query.phrases config +
             config.weights.recency *
               computeRecencyBonus now doc.mtime config.recencyHalfLife
           matchSpans := (scoreFieldsAcc doc query config).2 }

/-- Source `createScorer`: a scorer with the configuration bound. -/
noncomputable def createScorer (config : ScorerConfig) :
    ℤ → Doc → ParsedQuery → Option ScoredDoc :=
  fun now doc query => scoreDoc now doc query config

end NvSwitcher

namespace NvSwitcher

/-- Swap two positions of a list (the heap's `swap`); identity when an
index is out of bounds (never the case at call sites). -/
def listSwap {α : Type} (l : List α) (i j : ℕ) : List α :=
  match l.get? i, l.get? j with
  | some a, some b => (l.set i b).set j a
  | _, _ => l

/-- Generic min-heap over a JavaScript comparator returning a number
(src/search/min-heap.ts `MinHeap`). -/
structure MinHeap (α : Type) : Type where
  items : List α
  maxSize : ℕ
  cmp : α → α → ℝ

/-- Number of items in the heap. -/
def MinHeap.size {α : Type} (h : MinHeap α) : ℕ := h.items.length

/-- Source `heapifyUp`: bubble the item at the index up while it
compares strictly below its parent. -/
noncomputable def heapifyUp {α : Type} (cmp : α → α → ℝ) :
    List α → ℕ → List α
  | items, 0 => items
  | items, i + 1 =>
    let parentIndex := i / 2
    match items.get? (i + 1), items.get? parentIndex with
    | some x, some y =>
      if cmp x y ≥ 0 then items
      else heapifyUp cmp (listSwap items (i + 1) parentIndex) parentIndex
    | _, _ => items
  termination_by _ i => i
  decreasing_by omega

/-- Source `heapifyDown`, with an explicit fuel argument: the source's
`while (true)` loop strictly increases the index, so it performs at most
`items.length` iterations and the fuel used below is never exhausted. -/
noncomputable def heapifyDownAux {α : Type} (cmp : α → α → ℝ) :
    ℕ → List α → ℕ → List α
  | 0, items, _ => items
  | fuel + 1, items, index =>
    let leftChild := 2 * index + 1
    let rightChild := 2 * index + 2
    let m1 := match items.get? leftChild, items.get? index with
      | some xl, some xi => if cmp xl xi < 0 then leftChild else index
      | _, _ => index
    let minIndex := match items.get? rightChild, items.get? m1 with
      | some xr, some xm => if cmp xr xm < 0 then rightChild else m1
      | _, _ => m1
    if minIndex = index then items
    else heapifyDownAux cmp fuel (listSwap items index minIndex) minIndex

/-- Source `heapifyDown`. -/
noncomputable def heapifyDown {α : Type} (cmp : α → α → ℝ)
    (items : List α) (index : ℕ) : List α :=
  heapifyDownAux cmp (items.length + 1) items index

/-- Source `push`: below capacity, append and bubble up; at capacity,
replace the minimum when the new item compares strictly above it. -/
noncomputable def MinHeap.push {α : Type} (h : MinHeap α) (item : α) :
    Bool × MinHeap α :=
  if h.maxSize > 0 ∧ h.items.length ≥ h.maxSize then
    match h.items.get? 0 with
    | some root =>
      if h.cmp item root ≤ 0 then (false, h)
      else
        (true, { h with items := heapifyDown h.cmp (h.items.set 0 item) 0 })
    | none =>
      (true, { h with
        items := heapifyUp h.cmp (h.items ++ [item]) h.items.length })
  else
    (true, { h with
      items := heapifyUp h.cmp (h.items ++ [item]) h.items.length })

/-- Source `pop`: remove and return the minimum. -/
noncomputable def MinHeap.pop {α : Type} (h : MinHeap α) :
    Option α × MinHeap α :=
  match h.items with
  | [] => (none, h)
  | [x] => (some x, { h with items := [] })
  | x :: _ =>
    match h.items.getLast? with
    | some lastItem =>
      (some x,
       { h with items := heapifyDown h.cmp ((h.items.dropLast).set 0 lastItem) 0 })
    | none => (some x, { h with items := [] })

/-- Source `extractAll`, with fuel: each `pop` on a non-empty heap
shrinks the item list, so `items.length` rounds empty the heap. -/
noncomputable def extractAllAux {α : Type} :
    ℕ → MinHeap α → List α → List α
  | 0, _, acc => acc.reverse
  | fuel + 1, h, acc =>
    match h.pop with
    | (none, _) => acc.reverse
    | (some x, h') => extractAllAux fuel h' (x :: acc)

/-- Source `extractAll`: all items in ascending comparator order,
emptying the heap. -/
noncomputable def MinHeap.extractAll {α : Type} (h : MinHeap α) : List α :=
  extractAllAux h.items.length h []

/-- Source `toArray`: the raw item array. -/
def MinHeap.toArray {α : Type} (h : MinHeap α) : List α := h.items

/-- Source `createSearchResultHeap`: a min-heap of search results with
the comparator `(a, b) => a.score - b.score`. -/
noncomputable def createSearchResultHeap (maxSize : ℕ) :
    MinHeap SearchResult :=
  { items := [], maxSize := maxSize, cmp := fun a b => a.score - b.score }

/-- Stable insertion step of `Array.prototype.sort` under a JavaScript
comparator: `x` goes before the first element it does not compare
strictly above. -/
noncomputable def jsSortedInsert {α : Type} (c : α → α → ℝ) (x : α) :
    List α → List α
  | [] => [x]
  | y :: ys => if c x y ≤ 0 then x :: y :: ys else y :: jsSortedInsert c x ys

/-- `Array.prototype.sort(comparator)` modelled as a stable sort
(ECMAScript requires sort stability). -/
noncomputable def jsSortBy {α : Type} (c : α → α → ℝ) (l : List α) :
    List α :=
  l.foldr (jsSortedInsert c) []

/-- Posting-list entry (src/search/built-in-provider.ts
`PostingEntry`). -/
structure PostingEntry : Type where
  docId : JStr
  field : Field
  tf : ℕ
  positions : List ℕ
deriving DecidableEq, Repr

/-- Per-field token counts (`Record<SearchableField, number>`). -/
structure FieldLengths : Type where
  title : ℕ
  path : ℕ
  headings : ℕ
  tags : ℕ
  symbols : ℕ
  body : ℕ
deriving DecidableEq, Repr

/-- Stored document metadata (`DocMetadata`). -/
structure DocMetadata : Type where
  doc : Doc
  fieldLengths : FieldLengths
deriving DecidableEq, Repr

/-- `Map.prototype.get` over an insertion-ordered association list. -/
def mapGet {β : Type} (m : List (JStr × β)) (k : JStr) : Option β :=
  (m.find? (fun e => e.1 == k)).map Prod.snd

/-- `Map.prototype.set`: replace in place when the key is present
(ECMAScript keeps the original insertion position), else append. -/
def mapSet {β : Type} (m : List (JStr × β)) (k : JStr) (v : β) :
    List (JStr × β) :=
  if (m.find? (fun e => e.1 == k)).isSome then
    m.map (fun e => if e.1 == k then (k, v) else e)
  else m ++ [(k, v)]

/-- `Map.prototype.delete`. -/
def mapDelete {β : Type} (m : List (JStr × β)) (k : JStr) :
    List (JStr × β) :=
  m.filter (fun e => !(e.1 == k))

/-- `Set.prototype.add` (first-insertion order preserved). -/
def setAdd (s : List JStr) (k : JStr) : List JStr :=
  if s.contains k then s else s ++ [k]

/-- Provider state: inverted index, document store, document
frequencies, and the `totalDocs` counter. -/
structure ProviderState : Type where
  index : List (JStr × List PostingEntry)
  docs : List (JStr × DocMetadata)
  df : List (JStr × ℕ)
  totalDocs : ℕ
deriving DecidableEq

/-- Freshly constructed provider. -/
def emptyState : ProviderState :=
  { index := [], docs := [], df := [], totalDocs := 0 }

/-- Provider configuration (`Required<BuiltInProviderOptions>`; the
`debug` flag only controls logging and is omitted). -/
structure ProviderOptions : Type where
  maxDocs : ℕ := 50000
  maxBodyLength : ℕ := 2 * 1024 * 1024
  regexCandidateK : ℕ := 300
  scorerConfig : ScorerConfig

/-- Error message thrown when the document cap is reached. -/
def capacityMsg (n : ℕ) : String :=
  "Maximum document limit reached (" ++ toString n ++ ")"

/-- Source `remove`: drop the metadata record, decrement `totalDocs`,
and strip the document's entries from every posting list, deleting
terms whose lists become empty and updating `df`. -/
def removeOp (s : ProviderState) (id : JStr) : ProviderState :=
  match mapGet s.docs id with
  | none => s
  | some _ =>
    let docs := mapDelete s.docs id
    let step := fun (acc : List (JStr × List PostingEntry) × List (JStr × ℕ))
        (entry : JStr × List PostingEntry) =>
      let term := entry.1
      let postingList := entry.2
      let filteredList := postingList.filter (fun e => !(e.docId == id))
      if filteredList.length ≠ postingList.length then
        if filteredList.length = 0 then
          (mapDelete acc.1 term, mapDelete acc.2 term)
        else
          (mapSet acc.1 term filteredList, mapSet acc.2 term filteredList.length)
      else acc
    let idxDf := s.index.foldl step (s.index, s.df)
    { index := idxDf.1, docs := docs, df := idxDf.2,
      totalDocs := s.totalDocs - 1 }

/-- The six searchable field contents of a (processed) document, in
source order; array-valued fields are space-joined at construction. -/
def fieldContents (d : Doc) : List (Field × JStr) :=
  [(.title, d.title), (.path, joinSp d.path), (.headings, joinSp d.headings),
   (.tags, joinSp d.tags), (.symbols, joinSp d.symbols), (.body, d.body)]

/-- Source position map construction: for each token (in order), append
its index to the entry of its normalized form. -/
def tokenPositions (tokens : List JStr) (diacritics : Bool) :
    List (JStr × List ℕ) :=
  tokens.enum.foldl
    (fun m p =>
      let normalized := normalizeText p.2 diacritics
      match mapGet m normalized with
      | some ps => mapSet m normalized (ps ++ [p.1])
      | none => m ++ [(normalized, [p.1])])
    []

/-- Body-truncation step of `upsert` (lines 110–116): the body is cut at
`maxBodyLength` UTF-16 code units when longer. -/
def processedDocOf (o : ProviderOptions) (d : Doc) : Doc :=
  { d with
    body := if d.body.length > o.maxBodyLength then
        d.body.take o.maxBodyLength
      else d.body }

/-- Field-tokenization step of `upsert` (lines 118–149): for each
searchable field of the processed document, its token count and the
position map of its normalized tokens. -/
def fieldDataOf (o : ProviderOptions) (d : Doc) :
    List (Field × (ℕ × List (JStr × List ℕ))) :=
  (fieldContents (processedDocOf o d)).map (fun fc =>
    let tokens := tokenizeWords fc.2 o.scorerConfig.diacritics
    (fc.1, (tokens.length, tokenPositions tokens o.scorerConfig.diacritics)))

/-- The `fieldLengths` record assembled by `upsert`. -/
def fieldLengthsOf (o : ProviderOptions) (d : Doc) : FieldLengths :=
  let lenOf := fun (f : Field) =>
    ((((fieldDataOf o d).find? (fun x => x.1 == f)).map (fun x => x.2.1)).getD 0)
  { title := lenOf .title, path := lenOf .path,
    headings := lenOf .headings, tags := lenOf .tags,
    symbols := lenOf .symbols, body := lenOf .body }

/-- The metadata record `upsert` stores for a document (lines
151–156). -/
def mkDocMetadata (o : ProviderOptions) (d : Doc) : DocMetadata :=
  ⟨processedDocOf o d, fieldLengthsOf o d⟩

/-- Posting-list update of `upsert` (lines 158–182): for every unique
normalized term of every field, create the term's posting list and `df`
entry if absent, append the posting entry, and increment `df`. -/
def addPostings (o : ProviderOptions) (d : Doc)
    (acc0 : List (JStr × List PostingEntry) × List (JStr × ℕ)) :
    List (JStr × List PostingEntry) × List (JStr × ℕ) :=
  (fieldDataOf o d).foldl
    (fun acc fd =>
      fd.2.2.foldl
        (fun (acc : List (JStr × List PostingEntry) × List (JStr × ℕ))
            (tp : JStr × List ℕ) =>
          let term := tp.1
          let acc := match mapGet acc.1 term with
            | some _ => acc
            | none => (acc.1 ++ [(term, [])], acc.2 ++ [(term, 0)])
          let postingList := (mapGet acc.1 term).getD []
          let idx := mapSet acc.1 term
            (postingList ++ [⟨d.id, fd.1, tp.2.length, tp.2⟩])
          let df := mapSet acc.2 term (((mapGet acc.2 term).getD 0) + 1)
          (idx, df))
        acc)
    acc0

/-- Remove-if-present step at the top of `upsert` (lines 100–103). -/
def upsertBase (s : ProviderState) (d : Doc) : ProviderState :=
  if (mapGet s.docs d.id).isSome then removeOp s d.id else s

/-- Source `upsert`.  Returns the thrown error message (if any) together
with the state as left at the point of return/throw: the capacity check
happens after the remove-if-present step, so a throw leaves the state
with any prior version of the document already removed. -/
def upsertOp (o : ProviderOptions) (s : ProviderState) (d : Doc) :
    Option String × ProviderState :=
  if (upsertBase s d).totalDocs ≥ o.maxDocs then
    (some (capacityMsg o.maxDocs), upsertBase s d)
  else
    (none,
     { index := (addPostings o d ((upsertBase s d).index, (upsertBase s d).df)).1
       docs := mapSet (upsertBase s d).docs d.id (mkDocMetadata o d)
       df := (addPostings o d ((upsertBase s d).index, (upsertBase s d).df)).2
       totalDocs := (upsertBase s d).totalDocs + 1 })

/-- Source `clear`. -/
def clearOp (_ : ProviderState) : ProviderState := emptyState

/-- Source `indexAll`: clear, then upsert each document in order.  A
thrown capacity error propagates out of the loop, so later documents
are not processed. -/
def indexAllOp (o : ProviderOptions) (s : ProviderState) (docs : List Doc) :
    Option String × ProviderState :=
  docs.foldl
    (fun acc d =>
      match acc.1 with
      | some _ => acc
      | none => upsertOp o acc.2 d)
    (none, clearOp s)

/-- Source `isEmpty`: no terms, phrases, or-groups, and no regex
(excludes and filters are not consulted). -/
def isEmptyQuery (q : ParsedQuery) : Bool :=
  q.terms = [] ∧ q.phrases = [] ∧ q.orGroups = [] ∧ q.regex = none

/-- Source `getRecentDocuments`: all documents scored by `mtime`, sorted
descending, rescored to `N − rank`, truncated to the limit. -/
noncomputable def getRecentDocuments (s : ProviderState) (limit : ℕ) :
    List SearchResult :=
  let results := s.docs.map (fun e =>
    ({ id := e.1, score := ((e.2.doc.mtime : ℤ) : ℝ), matchSpans := [] } :
      SearchResult))
  let results := jsSortBy (fun a b => b.score - a.score) results
  let results := results.enum.map (fun p =>
    { p.2 with score := ((results.length - p.1 : ℕ) : ℝ) })
  results.take limit

/-- Or-groups / plain-terms part of source `gatherCandidates`
(built-in-provider.ts lines 367–436): with or-groups, union ids inside
each group and intersect across groups; otherwise intersect the id sets
of the individual terms (terms with no posting list contribute no
set). -/
def gatherPositive (dia : Bool) (s : ProviderState) (q : ParsedQuery) :
    List JStr :=
  if q.orGroups ≠ [] then
    let groupCandidates := q.orGroups.foldl
      (fun acc orGroup =>
        let groupSet := orGroup.foldl
          (fun gs term =>
            match mapGet s.index (normalizeText term dia) with
            | some postingList =>
              postingList.foldl (fun gs e => setAdd gs e.docId) gs
            | none => gs)
          []
        if groupSet ≠ [] then acc ++ [groupSet] else acc)
      []
    match groupCandidates with
    | [] => []
    | g0 :: rest =>
      rest.foldl (fun cands g => cands.filter (fun docId => g.contains docId)) g0
  else
    let termCandidates := q.terms.foldl
      (fun acc term =>
        match mapGet s.index (normalizeText term dia) with
        | some postingList =>
          acc ++ [postingList.foldl (fun ts e => setAdd ts e.docId) []]
        | none => acc)
      []
    match termCandidates with
    | [] => []
    | t0 :: rest =>
      rest.foldl (fun cands t => cands.filter (fun docId => t.contains docId)) t0

/-- Source `gatherCandidates`: positive candidates, then the two
fallbacks — all ids when empty but phrases exist, and all ids when still
empty but a tag/path/in filter exists. -/
def gatherCandidates (dia : Bool) (s : ProviderState) (q : ParsedQuery) :
    List JStr :=
  let candidates := gatherPositive dia s q
  let candidates :=
    if candidates = [] ∧ q.phrases ≠ [] then s.docs.map Prod.fst
    else candidates
  if candidates = [] ∧
      (q.filters.tag ≠ [] ∨ q.filters.path ≠ [] ∨ q.filters.infolder ≠ []) then
    s.docs.map Prod.fst
  else candidates

/-- Compiled regular expression, modelled from the host engine by its
matching function: `find s i` is the first match of the pattern in `s`
at a position `≥ i`, as a half-open index pair. -/
structure CompiledRegex : Type where
  find : JStr → ℕ → Option (ℕ × ℕ)

/-- Host regular-expression engine: `compile source flags` is `none`
exactly when `new RegExp(source, flags)` throws. -/
structure RegexEngine : Type where
  compile : JStr → JStr → Option CompiledRegex

/-- ECMAScript `RegExp.prototype.test` for a regex with the global flag:
search from `lastIndex`; on success set `lastIndex` to the match end, on
failure reset it to 0.  Returns the outcome and the new `lastIndex`. -/
def jsTestG (rx : CompiledRegex) (s : JStr) (lastIndex : ℕ) : Bool × ℕ :=
  match rx.find s lastIndex with
  | some m => (true, m.2)
  | none => (false, 0)

/-- Iteration core of `String.prototype.matchAll` for a global regex:
collect matches from the given position onward, advancing past each
match (one position past a zero-length match).  The position strictly
increases, so `s.length + 2` rounds suffice. -/
def jsMatchAllAux (rx : CompiledRegex) (s : JStr) :
    ℕ → ℕ → List (ℕ × ℕ)
  | 0, _ => []
  | fuel + 1, pos =>
    match rx.find s pos with
    | none => []
    | some m =>
      m :: jsMatchAllAux rx s fuel (if m.2 > m.1 then m.2 else m.1 + 1)

/-- `String.prototype.matchAll(regex)` for a global regex: ECMAScript
clones the regex and starts the clone at the original's `lastIndex`;
the original's `lastIndex` is not modified. -/
def jsMatchAllG (rx : CompiledRegex) (s : JStr) (lastIndex : ℕ) :
    List (ℕ × ℕ) :=
  jsMatchAllAux rx s (s.length + 2) lastIndex

/-- Source `findRegexMatches`: spans of all matches of the regex in the
title and then the body (`match[0]` must be truthy, so zero-length
matches produce no span).  `lastIndex` is the regex object's current
`lastIndex`, which both `matchAll` calls read. -/
def findRegexMatches (doc : Doc) (rx : CompiledRegex) (lastIndex : ℕ) :
    List MatchSpan :=
  ((jsMatchAllG rx doc.title lastIndex).filter (fun m => m.2 > m.1)).map
      (fun m => ({ field := .title, start := m.1, endIdx := m.2 } : MatchSpan)) ++
    ((jsMatchAllG rx doc.body lastIndex).filter (fun m => m.2 > m.1)).map
      (fun m => ({ field := .body, start := m.1, endIdx := m.2 } : MatchSpan))

/-- Source `applyRegexFilter`: force the global flag, compile once, keep
those of the top `regexCandidateK` results whose title or body passes
`regex.test` — one shared regex object, so `lastIndex` persists from one
document to the next — append the regex match spans, truncate to the
limit.  A compile failure returns the original results truncated. -/
def applyRegexFilter (engine : RegexEngine)
    (docs : List (JStr × DocMetadata)) (regexCandidateK : ℕ)
    (results : List SearchResult) (regexSpec : RegexSpec) (limit : ℕ) :
    List SearchResult :=
  let flags := if regexSpec.flags.contains 'g' then regexSpec.flags
    else regexSpec.flags ++ ['g']
  match engine.compile regexSpec.source flags with
  | none => results.take limit
  | some regex =>
    let topK := results.take regexCandidateK
    let out := topK.foldl
      (fun (acc : List SearchResult × ℕ) result =>
        match mapGet docs result.id with
        | none => acc
        | some docMetadata =>
          let doc := docMetadata.doc
          let t1 := jsTestG regex doc.title acc.2
          if t1.1 then
            let regexMatches := findRegexMatches doc regex t1.2
            (acc.1 ++ [{ result with
                matchSpans := result.matchSpans ++ regexMatches }], t1.2)
          else
            let t2 := jsTestG regex doc.body t1.2
            if t2.1 then
              let regexMatches := findRegexMatches doc regex t2.2
              (acc.1 ++ [{ result with
                  matchSpans := result.matchSpans ++ regexMatches }], t2.2)
            else (acc.1, t2.2))
      ([], 0)
    out.1.take limit

/-- Mutable state of one `queryStream` run: the top-K heap, the ids
yielded so far, the processed-candidate counter, and the list of results
yielded so far (in yield order). -/
structure StreamState : Type where
  heap : MinHeap SearchResult
  yieldedIds : List JStr
  processedCount : ℕ
  out : List SearchResult

/-- Body of the candidate loop of source `queryStream` (lines 266–299):
score the candidate, push positive scores into the heap, count it, and
every 100 processed candidates yield the current top
`min(5, ⌊limit / 2⌋)` heap items (score-descending) that have not been
yielded yet. -/
noncomputable def processCandidate (o : ProviderOptions) (now : ℤ)
    (s : ProviderState) (q : ParsedQuery) (limit : ℕ)
    (st : StreamState) (docId : JStr) : StreamState :=
  match mapGet s.docs docId with
  | none => st
  | some docMetadata =>
    let st1 := match scoreDoc now docMetadata.doc q o.scorerConfig with
      | some scored =>
        if scored.score > 0 then
          { st with heap := (st.heap.push
              { id := docId, score := scored.score,
                matchSpans := scored.matchSpans }).2 }
        else st
      | none => st
    let st2 := { st1 with processedCount := st1.processedCount + 1 }
    if st2.processedCount % 100 = 0 ∧ st2.heap.size > 0 then
      let currentTop := (jsSortBy (fun a b => b.score - a.score)
        st2.heap.toArray).take (min 5 (limit / 2))
      currentTop.foldl
        (fun st r =>
          if st.yieldedIds.contains r.id then st
          else { st with
                 yieldedIds := st.yieldedIds ++ [r.id]
                 out := st.out ++ [r] })
        st2
    else st2

/-- Source `queryStream`, as the list of all yielded results in yield
order: the empty query yields the recent documents; otherwise the
candidate loop's progressive yields followed by the final heap contents
(score-descending, regex-post-filtered) that were not already
yielded. -/
noncomputable def queryStreamList (engine : RegexEngine)
    (o : ProviderOptions) (now : ℤ) (s : ProviderState) (q : ParsedQuery)
    (limit : ℕ) : List SearchResult :=
  if isEmptyQuery q then getRecentDocuments s limit
  else
    let candidates := gatherCandidates o.scorerConfig.diacritics s q
    let st0 : StreamState :=
      { heap := createSearchResultHeap limit, yieldedIds := [],
        processedCount := 0, out := [] }
    let stF := candidates.foldl (processCandidate o now s q limit) st0
    let finalResults := (stF.heap.extractAll).reverse
    let filteredResults := match q.regex with
      | some rx =>
        applyRegexFilter engine s.docs o.regexCandidateK finalResults rx limit
      | none => finalResults
    stF.out ++ filteredResults.filter (fun r => !(stF.yieldedIds.contains r.id))

/-- Consumption loop of source `query`: push each streamed result, then
break once the collected length reaches the limit (checked after the
push, so `limit = 0` still collects one result). -/
def collectBreakAux {α : Type} (limit cnt : ℕ) : List α → List α
  | [] => []
  | x :: xs =>
    x :: (if cnt + 1 ≥ limit then [] else collectBreakAux limit (cnt + 1) xs)

/-- Source `query`: recent documents for the empty query, otherwise the
streamed results collected up to the limit. -/
noncomputable def queryOp (engine : RegexEngine) (o : ProviderOptions)
    (now : ℤ) (s : ProviderState) (q : ParsedQuery) (limit : ℕ := 50) :
    List SearchResult :=
  if isEmptyQuery q then getRecentDocuments s limit
  else collectBreakAux limit 0 (queryStreamList engine o now s q limit)

/-- ECMAScript whitespace test for `String.prototype.trim` and `\s`
(restricted to the whitespace characters exercised here). -/
def isJsSpace (c : Char) : Bool :=
  c = ' ' ∨ c = '\t' ∨ c = '\n' ∨ c = '\r' ∨
  c.val.toNat = 0x0b ∨ c.val.toNat = 0x0c ∨
  c.val.toNat = 0xa0 ∨ c.val.toNat = 0xfeff

/-- `String.prototype.trim`. -/
def jsTrim (s : JStr) : JStr :=
  ((s.dropWhile isJsSpace).reverse.dropWhile isJsSpace).reverse

/-- Maximal non-whitespace runs: `s.split(/\s+/).filter(t => t.length > 0)`. -/
def splitWsAux : JStr → JStr → List JStr
  | [], acc => if acc = [] then [] else [acc.reverse]
  | c :: cs, acc =>
    if isJsSpace c then
      if acc = [] then splitWsAux cs []
      else acc.reverse :: splitWsAux cs []
    else splitWsAux cs (c :: acc)

/-- Tokenisation of the parser's residual text. -/
def splitWs (s : JStr) : List JStr := splitWsAux s []

/-- All interiors found by `remaining.matchAll(/"([^"]+)"/g)`, in
order: a quote followed by a non-empty run of non-quotes and a closing
quote; scanning resumes after the closing quote.  An adjacent quote pair
(empty interior) fails to match at its opening quote, and the scan moves
one character forward.  Structurally recursive on fuel (each step drops
at least one character, so `s.length` fuel is never exhausted). -/
def findPhrasesF : ℕ → JStr → List JStr
  | 0, _ => []
  | _ + 1, [] => []
  | fuel + 1, c :: cs =>
    if c = '"' then
      let interior := cs.takeWhile (fun x => x ≠ '"')
      match cs.drop interior.length with
      | '"' :: rest2 =>
        if interior ≠ [] then interior :: findPhrasesF fuel rest2
        else findPhrasesF fuel cs
      | _ => []
    else findPhrasesF fuel cs

/-- All phrase interiors of the residual text. -/
def findPhrases (s : JStr) : List JStr := findPhrasesF s.length s

/-- `remaining.replace(/"[^"]*"/g, '')`: remove every quoted substring,
empty interiors included (same fuel discipline as `findPhrasesF`). -/
def stripQuotedF : ℕ → JStr → JStr
  | 0, s => s
  | _ + 1, [] => []
  | fuel + 1, c :: cs =>
    if c = '"' then
      let interior := cs.takeWhile (fun x => x ≠ '"')
      match cs.drop interior.length with
      | '"' :: rest2 => stripQuotedF fuel rest2
      | _ => c :: stripQuotedF fuel cs
    else c :: stripQuotedF fuel cs

/-- The residual text with every quoted substring removed. -/
def stripQuoted (s : JStr) : JStr := stripQuotedF s.length s

/-- Backtracking matcher for the interior and close of the parser's
regex-literal pattern `\/((?:\\\/|[^\/])+?)\/(i?)`, positioned at the
text after the opening slash.  One atom is consumed per level: the
alternation prefers the escaped slash `\/`, and the lazy quantifier
tries to close at a `/` before consuming a further atom; when the
escaped-slash choice fails downstream, the backslash is re-read as a
single `[^\/]` character, after which the following `/` closes the
literal (the continuation after the close always succeeds).  Returns
the interior and the text after the closing slash.  Each level consumes
at least one character, so `s.length` fuel is never exhausted. -/
def bodyAtomF : ℕ → JStr → Option (JStr × JStr)
  | 0, _ => none
  | fuel + 1, s =>
    let close := fun (consumed : List Char) (rest : JStr) =>
      match rest with
      | '/' :: r2 => some (consumed, r2)
      | _ => (bodyAtomF fuel rest).map (fun p => (consumed ++ p.1, p.2))
    match s with
    | '\\' :: '/' :: rest =>
      (match close ['\\', '/'] rest with
       | some p => some p
       | none => some (['\\'], rest))
    | c :: rest => if c ≠ '/' then close [c] rest else none
    | [] => none

/-- First match of the parser's regex-literal pattern
`/\/((?:\\\/|[^\/])+?)\/(i?)/` in the residual text: returns the text
before the match, the interior (pattern source), the flags (`"i"` when
the greedy optional flag group consumes an `i`, else empty), and the
text after the whole match. -/
def scanRegexLit : JStr → Option (JStr × JStr × JStr × JStr)
  | [] => none
  | c :: cs =>
    if c = '/' then
      match bodyAtomF cs.length cs with
      | some p =>
        let flags : JStr := match p.2 with
          | 'i' :: _ => ['i']
          | _ => []
        let after := if flags = [] then p.2 else p.2.tail
        some ([], p.1, flags, after)
      | none =>
        (scanRegexLit cs).map (fun r => (c :: r.1, r.2.1, r.2.2.1, r.2.2.2))
    else (scanRegexLit cs).map (fun r => (c :: r.1, r.2.1, r.2.2.1, r.2.2.2))

/-- Parse error record (`ParseError`); the message of the host's
exception is opaque and modelled by a fixed string. -/
structure ParseErrorRec : Type where
  etype : String
  message : String
  position : Option ℕ
deriving DecidableEq, Repr

/-- Parser settings (the fields of `QueryParserSettings` that the parser
reads). -/
structure ParserSettings : Type where
  cmdEnabled : Bool := true
  cmdChar : JStr := ['>']
  diacritics : Bool := true
  regexCandidateK : ℕ := 300

/-- Case-insensitive test of a token against the `OR` keyword. -/
def isOrTok (t : JStr) : Bool := jsToUpperCase t == ('O' :: ['R'])

/-- Accumulator of the parser's token-classification loop. -/
structure ClassSt : Type where
  terms : List JStr := []
  excludes : List JStr := []
  orGroups : List (List JStr) := []
  currentOrGroup : List JStr := []
  inOrGroup : Bool := false
  fieldSel : Option Field := none
  ftag : List JStr := []
  fpath : List JStr := []
  fin : List JStr := []
deriving DecidableEq, Repr

/-- One iteration of the parser's token loop (query-parser.ts lines
131–225); `next` is the lookahead `tokens[i+1]`.  Every branch except
the ordinary-term branch ends in `continue`, so only ordinary terms
reach the group-closing check at the bottom of the loop. -/
def classifyStep (st : ClassSt) (token : JStr) (next : Option JStr) :
    ClassSt :=
  let nextIsOr := match next with
    | some n => isOrTok n
    | none => false
  if isOrTok token then
    if !st.inOrGroup ∧ st.terms ≠ [] then
      { st with currentOrGroup := [st.terms.getLast!]
                terms := st.terms.dropLast
                inOrGroup := true }
    else st
  else if st.inOrGroup = st.inOrGroup ∧ token.head? = some '-' ∧ token.length > 1 then
    { st with excludes := st.excludes ++ [token.drop 1] }
  else if token = ['#'] then { st with fieldSel := some .headings }
  else if token = ['@'] then { st with fieldSel := some .symbols }
  else if ('t' :: 'a' :: 'g' :: [':']).isPrefixOf token then
    let tagValue := token.drop 4
    if tagValue ≠ [] then { st with ftag := st.ftag ++ [tagValue] } else st
  else if token.head? = some '#' ∧ token.length > 1 then
    { st with ftag := st.ftag ++ [token.drop 1] }
  else if ('p' :: 'a' :: 't' :: 'h' :: [':']).isPrefixOf token then
    let pathValue := token.drop 5
    if pathValue ≠ [] then { st with fpath := st.fpath ++ [pathValue] }
    else st
  else if ('i' :: 'n' :: [':']).isPrefixOf token then
    let inValue := token.drop 3
    if inValue ≠ [] then { st with fin := st.fin ++ [inValue] } else st
  else
    let st :=
      if st.inOrGroup then
        { st with currentOrGroup := st.currentOrGroup ++ [token] }
      else if nextIsOr then
        { st with currentOrGroup := [token], inOrGroup := true }
      else { st with terms := st.terms ++ [token] }
    if st.inOrGroup ∧ !nextIsOr then
      if st.currentOrGroup.length ≥ 2 then
        { st with orGroups := st.orGroups ++ [st.currentOrGroup]
                  currentOrGroup := []
                  inOrGroup := false }
      else if st.currentOrGroup.length = 1 then
        { st with terms := st.terms ++ [st.currentOrGroup.headD []]
                  currentOrGroup := []
                  inOrGroup := false }
      else { st with currentOrGroup := [], inOrGroup := false }
    else st

/-- The parser's token loop over all tokens. -/
def classifyAll (st : ClassSt) : List JStr → ClassSt
  | [] => st
  | t :: rest => classifyAll (classifyStep st t rest.head?) rest

/-- Source `parseQueryWithErrors` (query-parser.ts).  The host regex
engine appears as the `engine` parameter: the parser validates a found
regex literal by attempting compilation.  The found literal is removed
from the residual text whether or not it compiles. -/
def parseQueryWithErrors (engine : RegexEngine) (input : JStr)
    (settings : ParserSettings) : ParsedQuery × List ParseErrorRec :=
  let trimmed := jsTrim input
  if settings.cmdEnabled ∧ settings.cmdChar.isPrefixOf trimmed then
    let commandQuery := jsTrim (trimmed.drop settings.cmdChar.length)
    ({ raw := input, mode := .commands
       terms := if commandQuery ≠ [] then [commandQuery] else []
       phrases := [], excludes := [], orGroups := []
       filters := {}, regex := none }, [])
  else
    let phrases := findPhrases trimmed
    let remaining := jsTrim (stripQuoted trimmed)
    let scanned := scanRegexLit remaining
    let afterRegex := match scanned with
      | some r =>
        let rxOk := (engine.compile r.2.1 r.2.2.1).isSome
        let errs : List ParseErrorRec :=
          if rxOk then []
          else [{ etype := "regex", message := "Invalid regex pattern"
                  position := indexOfSub
                    ('/' :: r.2.1 ++ '/' :: r.2.2.1) remaining }]
        (jsTrim (r.1 ++ r.2.2.2),
         if rxOk then some (⟨r.2.1, r.2.2.1⟩ : RegexSpec) else none, errs)
      | none => (remaining, none, ([] : List ParseErrorRec))
    let tokens := splitWs afterRegex.1
    let st := classifyAll {} tokens
    let st :=
      if st.inOrGroup ∧ st.currentOrGroup.length ≥ 2 then
        { st with orGroups := st.orGroups ++ [st.currentOrGroup] }
      else if st.inOrGroup ∧ st.currentOrGroup.length = 1 then
        { st with terms := st.terms ++ [st.currentOrGroup.headD []] }
      else st
    ({ raw := input, mode := .files
       terms := st.terms, phrases := phrases, excludes := st.excludes
       orGroups := st.orGroups
       filters := { tag := st.ftag, path := st.fpath, infolder := st.fin
                    field := st.fieldSel }
       regex := afterRegex.2.1 }, afterRegex.2.2)

/-- Source `parseQuery`: the query component of `parseQueryWithErrors`. -/
def parseQuery (engine : RegexEngine) (input : JStr)
    (settings : ParserSettings) : ParsedQuery :=
  (parseQueryWithErrors engine input settings).1

/-- Length of the one-character lowercase image: 2 for U+0130, else 1. -/
theorem jsLowerChar_length (c : Char) :
    (jsLowerChar c).length = if c = 'İ' then 2 else 1 := by
  unfold jsLowerChar
  split <;> simp

/-- Lowercasing expands the length by exactly the number of occurrences
of U+0130. -/
theorem jsToLowerCase_length (s : JStr) :
    (jsToLowerCase s).length = s.length + s.count 'İ' := by
  induction s with
  | nil => simp [jsToLowerCase]
  | cons c cs ih =>
    simp only [jsToLowerCase, List.map_cons, List.flatten_cons,
      List.length_append, List.length_cons, List.count_cons] at *
    rw [ih, jsLowerChar_length]
    by_cases h : c = 'İ' <;> simp [h, beq_iff_eq] <;> omega

/-- Claim C8 (amended): `normalize(s, preserve_diacritics = true)` is
plain lowercasing, whose output length is the input length plus the
number of occurrences of U+0130 (LATIN CAPITAL LETTER I WITH DOT ABOVE),
the one character whose ECMAScript lowercase mapping is two code units.
In particular the length is preserved exactly for inputs without
U+0130. -/
theorem C8_normalize_length_amended (s : JStr) :
    (normalizeText s true).length = s.length + s.count 'İ' := by
  simpa [normalizeText] using jsToLowerCase_length s

/-- Claim C8, counterexample: on the one-character input `"İ"`,
`normalize` with preserved diacritics returns a two-character string, so
lowercasing does change the number of character units. -/
theorem C8_counterexample :
    (normalizeText ['İ'] true).length = 2 ∧ ([('İ' : Char)] : JStr).length = 1 := by
  constructor <;> rfl

/-- The flags component produced by the regex-literal scanner is always
empty or exactly `"i"`: the parser's pattern has the flags group
`(i?)`. -/
theorem scanRegexLit_flags (s : JStr) (r : JStr × JStr × JStr × JStr)
    (h : scanRegexLit s = some r) : r.2.2.1 = [] ∨ r.2.2.1 = ['i'] := by
  induction s generalizing r with
  | nil => simp [scanRegexLit] at h
  | cons c cs ih =>
    rw [scanRegexLit] at h
    by_cases hc : c = '/'
    · rw [if_pos hc] at h
      match hb : bodyAtomF cs.length cs with
      | some p =>
        rw [hb] at h
        simp only [Option.some.injEq] at h
        subst h
        match p.2 with
        | 'i' :: _ => right; rfl
        | [] => left; rfl
        | c2 :: l2 =>
          by_cases hi : c2 = 'i'
          · subst hi; right; rfl
          · left
            split
            · next _ heq =>
                injection heq with h1 _
                exact absurd h1 hi
            · rfl
      | none =>
        rw [hb] at h
        match hs : scanRegexLit cs with
        | some r0 =>
          rw [hs] at h
          simp only [Option.map_some', Option.some.injEq] at h
          subst h
          exact ih r0 hs
        | none => rw [hs] at h; simp at h
    · rw [if_neg hc] at h
      match hs : scanRegexLit cs with
      | some r0 =>
        rw [hs] at h
        simp only [Option.map_some', Option.some.injEq] at h
        subst h
        exact ih r0 hs
      | none => rw [hs] at h; simp at h

/-- Host regex engine that accepts every pattern (used only at inputs
whose pattern is a valid ECMAScript regular expression, such as `pat`);
its matcher is irrelevant to the parser. -/
def alwaysValidEngine : RegexEngine :=
  ⟨fun _ _ => some ⟨fun _ _ => none⟩⟩

/-- Default parser settings (commands prefix `>` enabled, diacritics
preserved, K = 300). -/
def defaultParserSettings : ParserSettings := {}

/-- Claim C7 (amended): the parser's regex-literal pattern has the flags
group `(i?)`, so the only flag it can retain is an optional `i`: every
parsed query's regex has flags `""` or `"i"`, and `'/pat/i'` parses to
`{source: "pat", flags: "i"}` with no residual term.  Flag letters other
than `i` (from `{g, m, s, u, y}`) are not consumed by the regex literal
and stay behind in the residual text. -/
theorem C7_regex_flags_amended :
    (∀ (engine : RegexEngine) (input : JStr) (settings : ParserSettings),
       ∀ r, ((parseQueryWithErrors engine input settings).1).regex = some r →
         r.flags = [] ∨ r.flags = ['i']) ∧
    ((parseQueryWithErrors alwaysValidEngine (js "/pat/i")
        defaultParserSettings).1).regex = some ⟨js "pat", js "i"⟩ ∧
    ((parseQueryWithErrors alwaysValidEngine (js "/pat/i")
        defaultParserSettings).1).terms = [] := by
  refine ⟨?_, by decide, by decide⟩
  intro engine input settings r h
  simp only [parseQueryWithErrors] at h
  split at h
  · simp at h
  · simp only at h
    match hs : scanRegexLit (jsTrim (stripQuoted (jsTrim input))) with
    | none => rw [hs] at h; simp at h
    | some r0 =>
      rw [hs] at h
      simp only at h
      by_cases hv : (engine.compile r0.2.1 r0.2.2.1).isSome
      · rw [if_pos hv] at h
        simp only [Option.some.injEq] at h
        have := scanRegexLit_flags _ r0 hs
        rw [← h]
        exact this
      · rw [if_neg hv] at h
        simp at h

/-- Claim C7, counterexample: on the input `'/pat/g'` the parser
extracts the regex with empty flags (not `'g'`) and leaves `'g'`
behind as an ordinary term. -/
theorem C7_counterexample :
    ((parseQueryWithErrors alwaysValidEngine (js "/pat/g")
        defaultParserSettings).1).regex = some ⟨js "pat", ([] : JStr)⟩ ∧
    ((parseQueryWithErrors alwaysValidEngine (js "/pat/g")
        defaultParserSettings).1).terms = [js "g"] ∧
    ((parseQueryWithErrors alwaysValidEngine (js "/pat/g")
        defaultParserSettings).1).regex ≠ some ⟨js "pat", js "g"⟩ :=
  ⟨by decide, by decide, by decide⟩

/-- Setting a key whose entry head differs commutes with cons. -/
theorem mapSet_cons_ne {β : Type} (e : JStr × β) (es : List (JStr × β))
    (k : JStr) (v : β) (he : (e.1 == k) = false) :
    mapSet (e :: es) k v = e :: mapSet es k v := by
  unfold mapSet
  rw [List.find?_cons_of_neg _ (by simp [he])]
  by_cases hs : (es.find? (fun x => x.1 == k)).isSome
  · simp only [hs, if_true, List.map_cons, he, if_false, Bool.false_eq_true]
  · simp [hs, he]

/-- Lookup skips an entry whose key differs. -/
theorem mapGet_cons_ne {β : Type} (e : JStr × β) (es : List (JStr × β))
    (k : JStr) (he : (e.1 == k) = false) :
    mapGet (e :: es) k = mapGet es k := by
  unfold mapGet
  rw [List.find?_cons_of_neg _ (by simp [he])]

/-- Looking up the key just set yields the value just set. -/
theorem mapGet_mapSet_self {β : Type} (m : List (JStr × β)) (k : JStr)
    (v : β) : mapGet (mapSet m k v) k = some v := by
  induction m with
  | nil => simp [mapSet, mapGet, List.find?]
  | cons e es ih =>
    by_cases he : (e.1 == k) = true
    · have hfind : List.find? (fun x => x.1 == k) (e :: es) = some e := by
        simp [List.find?_cons, he]
      have : mapSet (e :: es) k v =
          (k, v) :: es.map (fun x => if x.1 == k then (k, v) else x) := by
        unfold mapSet
        rw [hfind]
        simp only [Option.isSome_some, if_true, List.map_cons, he]
      rw [this]
      simp [mapGet, List.find?]
    · have he' : (e.1 == k) = false := by simpa using he
      rw [mapSet_cons_ne e es k v he', mapGet_cons_ne e _ k he']
      exact ih

/-- Key set of an association list. -/
def keysOf {β : Type} (m : List (JStr × β)) : List JStr := m.map Prod.fst

/-- A lookup misses exactly when the key is not among the keys. -/
theorem mapGet_eq_none_iff {β : Type} (m : List (JStr × β)) (k : JStr) :
    mapGet m k = none ↔ k ∉ keysOf m := by
  unfold mapGet keysOf
  rw [Option.map_eq_none', List.find?_eq_none]
  constructor
  · intro h hk
    obtain ⟨e, he, hek⟩ := List.mem_map.mp hk
    have := h e he
    simp only [beq_iff_eq] at this
    exact this hek
  · intro h e he
    simp only [beq_iff_eq]
    intro hek
    exact h (List.mem_map.mpr ⟨e, he, hek⟩)

/-- Claim C6 (amended): a successful upsert stores the document with its
body truncated at `maxBodyLength` UTF-16 code units (not bytes): the
stored metadata is exactly `mkDocMetadata`, whose document equals the
input except that an over-long body is cut to the first `maxBodyLength`
code units; hence the stored body's code-unit length never exceeds the
cap, and every later read of the document store sees only the truncated
content. -/
theorem C6_body_truncation_amended (o : ProviderOptions)
    (s : ProviderState) (d : Doc) (h : (upsertOp o s d).1 = none) :
    mapGet (upsertOp o s d).2.docs d.id = some (mkDocMetadata o d) ∧
    (mkDocMetadata o d).doc =
      { d with body := if d.body.length > o.maxBodyLength then
          d.body.take o.maxBodyLength else d.body } ∧
    (mkDocMetadata o d).doc.body.length ≤ o.maxBodyLength := by
  refine ⟨?_, rfl, ?_⟩
  · unfold upsertOp at h ⊢
    by_cases hc : (upsertBase s d).totalDocs ≥ o.maxDocs
    · rw [if_pos hc] at h
      simp at h
    · rw [if_neg hc] at h ⊢
      exact mapGet_mapSet_self _ _ _
  · show (processedDocOf o d).body.length ≤ o.maxBodyLength
    unfold processedDocOf
    by_cases hb : d.body.length > o.maxBodyLength
    · simp only [if_pos hb]
      simp only [List.length_take]
      omega
    · simp only [if_neg hb]
      simp only [gt_iff_lt, not_lt] at hb
      simpa using hb

/-- Deleting a key makes its lookup miss. -/
theorem mapGet_mapDelete_self {β : Type} (m : List (JStr × β)) (k : JStr) :
    mapGet (mapDelete m k) k = none := by
  unfold mapGet mapDelete
  rw [Option.map_eq_none', List.find?_eq_none]
  intro x hx
  have := (List.mem_filter.mp hx).2
  simpa using this

/-- Setting a fresh key appends the entry. -/
theorem mapSet_fresh_append {β : Type} (m : List (JStr × β)) (k : JStr)
    (v : β) (h : mapGet m k = none) : mapSet m k v = m ++ [(k, v)] := by
  unfold mapGet at h
  rw [Option.map_eq_none'] at h
  unfold mapSet
  rw [h]
  simp

/-- Deleting a present key from a duplicate-free map removes exactly one
entry. -/
theorem mapDelete_length_present {β : Type} (m : List (JStr × β))
    (k : JStr) (hnd : (keysOf m).Nodup) (h : mapGet m k ≠ none) :
    (mapDelete m k).length + 1 = m.length := by
  induction m with
  | nil => simp [mapGet] at h
  | cons e es ih =>
    by_cases he : (e.1 == k) = true
    · have hek : e.1 = k := beq_iff_eq.mp he
      have hnotin : e.1 ∉ keysOf es :=
        (List.nodup_cons.mp hnd).1
      have hfilter : mapDelete es k = es := by
        unfold mapDelete
        rw [List.filter_eq_self]
        intro x hx
        have hxk : x.1 ≠ k := by
          intro hh
          exact hnotin (hek ▸ hh ▸ List.mem_map_of_mem Prod.fst hx)
        simp [hxk]
      unfold mapDelete at hfilter ⊢
      rw [List.filter_cons_of_neg (by simp [he]), hfilter]
      simp
    · have he' : (e.1 == k) = false := by simpa using he
      have hstep : mapDelete (e :: es) k = e :: mapDelete es k := by
        unfold mapDelete
        rw [List.filter_cons_of_pos (by simp [he'])]
      have hget : mapGet es k ≠ none := by
        rw [← mapGet_cons_ne e es k he']
        exact h
      have hnd' : (keysOf es).Nodup := (List.nodup_cons.mp hnd).2
      have := ih hnd' hget
      rw [hstep]
      simp only [List.length_cons]
      omega

/-- Deleting preserves duplicate-freedom of the keys. -/
theorem mapDelete_keys_nodup {β : Type} (m : List (JStr × β)) (k : JStr)
    (hnd : (keysOf m).Nodup) : (keysOf (mapDelete m k)).Nodup := by
  unfold mapDelete keysOf at *
  exact List.Nodup.sublist ((List.filter_sublist _).map Prod.fst) hnd

/-- Shape of `remove` when the document is present. -/
theorem removeOp_of_present (s : ProviderState) (id : JStr)
    (h : (mapGet s.docs id).isSome = true) :
    (removeOp s id).docs = mapDelete s.docs id ∧
    (removeOp s id).totalDocs = s.totalDocs - 1 := by
  unfold removeOp
  rcases hq : mapGet s.docs id with _ | v
  · rw [hq] at h; simp at h
  · simp [hq]

/-- `remove` of an absent id is a no-op. -/
theorem removeOp_of_absent (s : ProviderState) (id : JStr)
    (h : mapGet s.docs id = none) : removeOp s id = s := by
  unfold removeOp
  simp [h]

/-- Well-formedness of a provider state: the document counter matches
the store, ids are unique, and the counter respects the document cap. -/
def stateWF (o : ProviderOptions) (s : ProviderState) : Prop :=
  s.totalDocs = s.docs.length ∧ (keysOf s.docs).Nodup ∧
  s.totalDocs ≤ o.maxDocs

instance (o : ProviderOptions) (s : ProviderState) :
    Decidable (stateWF o s) := by
  unfold stateWF
  exact inferInstance

/-- `remove` preserves well-formedness. -/
theorem removeOp_WF (o : ProviderOptions) (s : ProviderState) (id : JStr)
    (h : stateWF o s) : stateWF o (removeOp s id) := by
  obtain ⟨h1, h2, h3⟩ := h
  by_cases hp : (mapGet s.docs id).isSome
  · obtain ⟨hd, ht⟩ := removeOp_of_present s id hp
    have hlen := mapDelete_length_present s.docs id h2
      (Option.isSome_iff_ne_none.mp hp)
    refine ⟨?_, ?_, ?_⟩
    · rw [ht, hd]; omega
    · rw [hd]; exact mapDelete_keys_nodup _ _ h2
    · rw [ht]; omega
  · have hn : mapGet s.docs id = none :=
      Option.not_isSome_iff_eq_none.mp hp
    rw [removeOp_of_absent s id hn]
    exact ⟨h1, h2, h3⟩

/-- The remove-if-present step preserves well-formedness. -/
theorem upsertBase_WF (o : ProviderOptions) (s : ProviderState) (d : Doc)
    (h : stateWF o s) : stateWF o (upsertBase s d) := by
  unfold upsertBase
  split
  · exact removeOp_WF o s d.id h
  · exact h

/-- After the remove-if-present step the document's id is absent. -/
theorem upsertBase_fresh (s : ProviderState) (d : Doc) :
    mapGet (upsertBase s d).docs d.id = none := by
  unfold upsertBase
  by_cases hp : (mapGet s.docs d.id).isSome
  · rw [if_pos hp, (removeOp_of_present s d.id hp).1]
    exact mapGet_mapDelete_self _ _
  · rw [if_neg hp]
    exact Option.not_isSome_iff_eq_none.mp hp

/-- The remove-if-present step of an absent id does nothing. -/
theorem upsertBase_of_absent (s : ProviderState) (d : Doc)
    (h : mapGet s.docs d.id = none) : upsertBase s d = s := by
  unfold upsertBase
  simp [h]

/-- `upsert` preserves well-formedness (on success the counter and store
grow together, and the id was made fresh by the remove step; on failure
the returned state is the post-remove state). -/
theorem upsertOp_WF (o : ProviderOptions) (s : ProviderState) (d : Doc)
    (h : stateWF o s) : stateWF o (upsertOp o s d).2 := by
  have hb := upsertBase_WF o s d h
  have hfresh := upsertBase_fresh s d
  unfold upsertOp
  by_cases hc : (upsertBase s d).totalDocs ≥ o.maxDocs
  · rw [if_pos hc]
    exact hb
  · rw [if_neg hc]
    obtain ⟨h1, h2, h3⟩ := hb
    refine ⟨?_, ?_, ?_⟩
    · show (upsertBase s d).totalDocs + 1 =
        (mapSet (upsertBase s d).docs d.id (mkDocMetadata o d)).length
      rw [mapSet_fresh_append _ _ _ hfresh]
      simp only [List.length_append, List.length_cons, List.length_nil]
      omega
    · show (keysOf (mapSet (upsertBase s d).docs d.id
        (mkDocMetadata o d))).Nodup
      rw [mapSet_fresh_append _ _ _ hfresh]
      unfold keysOf at *
      rw [List.map_append]
      rw [List.nodup_append]
      refine ⟨h2, by simp, ?_⟩
      intro a ha hb1
      have : a = d.id := by simpa using hb1
      subst this
      exact (mapGet_eq_none_iff _ _).mp hfresh ha
    · show (upsertBase s d).totalDocs + 1 ≤ o.maxDocs
      omega

/-- The empty state is well-formed. -/
theorem emptyState_WF (o : ProviderOptions) : stateWF o emptyState := by
  refine ⟨rfl, ?_, ?_⟩ <;> simp [emptyState, keysOf]

/-- `indexAll` preserves well-formedness. -/
theorem indexAllOp_WF (o : ProviderOptions) (s : ProviderState)
    (docs : List Doc) : stateWF o (indexAllOp o s docs).2 := by
  unfold indexAllOp
  have key : ∀ (l : List Doc) (acc : Option String × ProviderState),
      stateWF o acc.2 →
      stateWF o ((l.foldl (fun acc d =>
        match acc.1 with
        | some _ => acc
        | none => upsertOp o acc.2 d) acc).2) := by
    intro l
    induction l with
    | nil => intro acc h; exact h
    | cons d ds ih =>
      intro acc h
      simp only [List.foldl_cons]
      apply ih
      rcases acc with ⟨e, st⟩
      cases e with
      | none => exact upsertOp_WF o st d h
      | some msg => exact h
  exact key docs (none, clearOp s) (emptyState_WF o)

/-- States reachable from a fresh provider through the public mutating
operations. -/
inductive ReachableState (o : ProviderOptions) : ProviderState → Prop where
  | empty : ReachableState o emptyState
  | upsert {s : ProviderState} (d : Doc) :
      ReachableState o s → ReachableState o (upsertOp o s d).2
  | remove {s : ProviderState} (id : JStr) :
      ReachableState o s → ReachableState o (removeOp s id)
  | clear {s : ProviderState} :
      ReachableState o s → ReachableState o (clearOp s)
  | indexAll {s : ProviderState} (docs : List Doc) :
      ReachableState o s → ReachableState o (indexAllOp o s docs).2

/-- Every reachable state is well-formed. -/
theorem reachable_WF (o : ProviderOptions) (s : ProviderState)
    (h : ReachableState o s) : stateWF o s := by
  induction h with
  | empty => exact emptyState_WF o
  | upsert d _ ih => exact upsertOp_WF o _ d ih
  | remove id _ ih => exact removeOp_WF o _ id ih
  | clear _ ih => exact emptyState_WF o
  | indexAll docs _ ih => exact indexAllOp_WF o _ docs

/-- Claim C5: on a well-formed provider state, upserting a fresh
document when the store already holds `max_docs` documents throws the
capacity error and leaves the state exactly unchanged; replacing an
already-present id always succeeds (also at the cap, thanks to the
remove-first step); the state stays well-formed after any upsert; and
the document count never exceeds `max_docs` in any state reachable
through the provider's operations. -/
theorem C5_capacity (o : ProviderOptions) (s : ProviderState) (d : Doc)
    (hwf : stateWF o s) :
    (mapGet s.docs d.id = none → o.maxDocs ≤ s.totalDocs →
       upsertOp o s d = (some (capacityMsg o.maxDocs), s)) ∧
    ((mapGet s.docs d.id).isSome = true → (upsertOp o s d).1 = none) ∧
    stateWF o (upsertOp o s d).2 ∧
    (∀ s', ReachableState o s' → s'.totalDocs ≤ o.maxDocs) := by
  obtain ⟨h1, h2, h3⟩ := hwf
  refine ⟨?_, ?_, upsertOp_WF o s d ⟨h1, h2, h3⟩, ?_⟩
  · intro habs hcap
    have hb : upsertBase s d = s := upsertBase_of_absent s d habs
    unfold upsertOp
    rw [hb, if_pos (by omega)]
  · intro hp
    obtain ⟨_, ht⟩ := removeOp_of_present s d.id hp
    have hpos : 1 ≤ s.docs.length := by
      rcases hq : s.docs with _ | ⟨e, es⟩
      · rw [hq] at hp; simp [mapGet] at hp
      · simp
    have hbase : (upsertBase s d).totalDocs = s.totalDocs - 1 := by
      unfold upsertBase
      rw [if_pos hp, ht]
    unfold upsertOp
    rw [if_neg (by rw [hbase]; omega)]
  · intro s' hr
    exact (reachable_WF o s' hr).2.2

/-- Default provider options (constructor defaults with the default
scorer configuration). -/
noncomputable def defaultOpts : ProviderOptions :=
  { scorerConfig := DEFAULT_SCORER_CONFIG }

/-- Provider options with `maxDocs = 1`. -/
noncomputable def optsCap1 : ProviderOptions :=
  { maxDocs := 1, scorerConfig := DEFAULT_SCORER_CONFIG }

/-- Provider options with `maxBodyLength = 4`. -/
noncomputable def optsBody4 : ProviderOptions :=
  { maxBodyLength := 4, scorerConfig := DEFAULT_SCORER_CONFIG }

/-- Provider options with `maxBodyLength = 1`. -/
noncomputable def optsBody1 : ProviderOptions :=
  { maxBodyLength := 1, scorerConfig := DEFAULT_SCORER_CONFIG }

/-- A small document. -/
def docA5 : Doc :=
  { id := js "a.md", title := js "Alpha", path := [], tags := []
    headings := [], symbols := [], body := js "alpha text"
    mtime := 100, size := 10 }

/-- Another small document with a different id. -/
def docB5 : Doc :=
  { id := js "b.md", title := js "Beta", path := [], tags := []
    headings := [], symbols := [], body := js "beta text"
    mtime := 200, size := 9 }

/-- State holding exactly `docA5`, built through `upsert`. -/
noncomputable def s5 : ProviderState := (upsertOp optsCap1 emptyState docA5).2

/-- Claim C5, witness: with `maxDocs = 1` and one stored document,
upserting a fresh document fails with the capacity error and returns
the unchanged state. -/
theorem C5_capacity_witness :
    stateWF optsCap1 s5 ∧
    upsertOp optsCap1 s5 docB5 =
      (some (capacityMsg optsCap1.maxDocs), s5) :=
  ⟨by decide, (C5_capacity optsCap1 s5 docB5 (by decide)).1 (by decide)
    (by decide)⟩

/-- A document whose body exceeds a 4-unit cap. -/
def docBodyLong : Doc :=
  { id := js "w.md", title := js "W", path := [], tags := []
    headings := [], symbols := [], body := js "abcdef"
    mtime := 0, size := 6 }

/-- Claim C6, witness: with `maxBodyLength = 4` the stored body of a
6-character document is its 4-character prefix. -/
theorem C6_body_truncation_witness :
    (upsertOp optsBody4 emptyState docBodyLong).1 = none ∧
    (mapGet (upsertOp optsBody4 emptyState docBodyLong).2.docs
        docBodyLong.id = some (mkDocMetadata optsBody4 docBodyLong) ∧
     (mkDocMetadata optsBody4 docBodyLong).doc =
       { docBodyLong with
         body := if docBodyLong.body.length > optsBody4.maxBodyLength then
           docBodyLong.body.take optsBody4.maxBodyLength
           else docBodyLong.body } ∧
     (mkDocMetadata optsBody4 docBodyLong).doc.body.length ≤
       optsBody4.maxBodyLength) :=
  ⟨by decide, C6_body_truncation_amended optsBody4 emptyState docBodyLong
    (by decide)⟩

/-- UTF-8 byte length of a string. -/
def utf8Len (s : JStr) : ℕ := (s.map Char.utf8Size).sum

/-- A document with a two-character non-ASCII body. -/
def docAccent : Doc :=
  { id := js "e.md", title := [], path := [], tags := []
    headings := [], symbols := [], body := ['é', 'é']
    mtime := 0, size := 4 }

/-- Claim C6, counterexample: with a cap of 1, the body `"éé"` is cut
to one UTF-16 code unit `"é"`, whose UTF-8 byte length is 2 — greater
than `max_body_bytes = 1`, so the truncation is not a byte-cap
truncation. -/
theorem C6_counterexample :
    (mapGet (upsertOp optsBody1 emptyState docAccent).2.docs
        docAccent.id).map (fun m => utf8Len m.doc.body) = some 2 ∧
    optsBody1.maxBodyLength = 1 :=
  ⟨by decide, by decide⟩

/-- A query containing only an exclude term. -/
def qExcludesOnly : ParsedQuery :=
  { raw := js "-x", mode := .files, terms := [], phrases := []
    excludes := [js "x"], orGroups := [], filters := {}, regex := none }

/-- Claim C3 (amended): a query with at least one exclude term and no
terms, phrases, or-groups or regex satisfies the provider's `isEmpty`
test (which never consults `excludes`), so `query` takes the
empty-query path and returns the most-recently-modified documents — not
the empty list. -/
theorem C3_excludes_only_amended (engine : RegexEngine)
    (o : ProviderOptions) (now : ℤ) (s : ProviderState) (q : ParsedQuery)
    (limit : ℕ) (h : isEmptyQuery q = true) :
    queryOp engine o now s q limit = getRecentDocuments s limit := by
  unfold queryOp
  rw [if_pos h]

/-- Claim C3, witness: the excludes-only query `-x` takes the
empty-query path. -/
theorem C3_excludes_only_witness :
    isEmptyQuery qExcludesOnly = true ∧ qExcludesOnly.excludes ≠ [] ∧
    queryOp alwaysValidEngine defaultOpts 0 s5 qExcludesOnly 50 =
      getRecentDocuments s5 50 :=
  ⟨by decide, by decide,
   C3_excludes_only_amended alwaysValidEngine defaultOpts 0 s5
     qExcludesOnly 50 (by decide)⟩

/-- Claim C3, counterexample: on a provider holding one document whose
body even contains the excluded term, the excludes-only query `-x`
returns that document (scored `N − rank = 1`), not the empty result
list. -/
theorem C3_counterexample :
    containsSub (js "x") docA5.body = true ∧
    queryOp alwaysValidEngine optsCap1 0 s5 qExcludesOnly 50 =
      [{ id := js "a.md", score := ((1 : ℕ) : ℝ), matchSpans := [] }] ∧
    queryOp alwaysValidEngine optsCap1 0 s5 qExcludesOnly 50 ≠ [] := by
  refine ⟨by decide, ?_, ?_⟩
  · rfl
  · intro hcontra
    rw [show queryOp alwaysValidEngine optsCap1 0 s5 qExcludesOnly 50 =
      [{ id := js "a.md", score := ((1 : ℕ) : ℝ), matchSpans := [] }] from rfl] at hcontra
    simp at hcontra

/-- Matcher of the compiled regular expression `/a/g`: the first
occurrence of the literal character `a` at a position at or after the
search start, as a one-character span. -/
def litFindA (s : JStr) (start : ℕ) : Option (ℕ × ℕ) :=
  ((s.enum.drop start).find? (fun p => p.2 = 'a')).map
    (fun p => (p.1, p.1 + 1))

/-- Host engine knowing the single pattern `a` (with the forced global
flag), as `applyRegexFilter` compiles it. -/
def litEngineA : RegexEngine :=
  ⟨fun src flags =>
    if src = ['a'] ∧ flags = ['g'] then some ⟨litFindA⟩ else none⟩

/-- First regex-test document: title `xa` matches `/a/` at index 1. -/
def docR1 : Doc :=
  { id := js "r1.md", title := js "xa", path := [], tags := []
    headings := [], symbols := [], body := js "b", mtime := 0, size := 1 }

/-- Second regex-test document: title `a` matches `/a/` at index 0. -/
def docR2 : Doc :=
  { id := js "r2.md", title := js "a", path := [], tags := []
    headings := [], symbols := [], body := js "b", mtime := 0, size := 1 }

/-- Provider state holding the two regex-test documents. -/
noncomputable def sR : ProviderState :=
  (indexAllOp defaultOpts emptyState [docR1, docR2]).2

/-- Claim C4, failing-input evaluation: the regex `/a/` (global flag
forced on) is tested document by document through one shared `RegExp`
object.  Testing `docR1`'s title `"xa"` succeeds and leaves
`lastIndex = 2`; the subsequent `test` of `docR2`'s title `"a"` then
starts at position 2 and fails even though the title matches the regex
from a fresh start, and `docR2` is dropped.  The claim's property —
every candidate whose title matches is kept, independent of the
documents tested before it — is violated. -/
theorem C4_lastIndex_state_leak :
    applyRegexFilter litEngineA sR.docs 300
      [{ id := js "r1.md", score := (5 : ℝ), matchSpans := [] },
       { id := js "r2.md", score := (4 : ℝ), matchSpans := [] }]
      ⟨js "a", []⟩ 10 =
      [{ id := js "r1.md", score := (5 : ℝ), matchSpans := [] }] ∧
    litFindA docR2.title 0 = some (0, 1) ∧
    (mapGet sR.docs (js "r2.md")).map (fun m => m.doc.title) =
      some (js "a") := by
  refine ⟨rfl, by decide, by decide⟩

/-- The positive candidate stage reads only terms and or-groups, never
the filters, so it does not change when the filters do. -/
theorem gatherPositive_filters (dia : Bool) (s : ProviderState)
    (raw : JStr) (mode : QueryMode) (terms phrases excludes : List JStr)
    (orGroups : List (List JStr)) (f1 f2 : QueryFilters)
    (regex : Option RegexSpec) :
    gatherPositive dia s ⟨raw, mode, terms, phrases, excludes, orGroups, f1, regex⟩ =
      gatherPositive dia s ⟨raw, mode, terms, phrases, excludes, orGroups, f2, regex⟩ :=
  rfl

/-- When the positive stage yields candidates, neither fallback fires
and `gatherCandidates` is the positive stage. -/
theorem gatherCandidates_of_pos (dia : Bool) (s : ProviderState)
    (q : ParsedQuery) (h : gatherPositive dia s q ≠ []) :
    gatherCandidates dia s q = gatherPositive dia s q := by
  unfold gatherCandidates
  simp [h]

/-- The whole streaming pipeline is invariant under the filters as soon
as the ordinary terms / or-groups produce a non-empty candidate set: the
filters are read only by `gatherCandidates`' final fallback, and neither
the scorer nor the regex post-filter reads them. -/
theorem queryStreamList_filters (engine : RegexEngine)
    (o : ProviderOptions) (now : ℤ) (s : ProviderState) (q : ParsedQuery)
    (limit : ℕ) (f1 f2 : QueryFilters)
    (hpos : gatherPositive o.scorerConfig.diacritics s q ≠ []) :
    queryStreamList engine o now s { q with filters := f1 } limit =
      queryStreamList engine o now s { q with filters := f2 } limit := by
  cases q with
  | mk raw mode terms phrases excludes orGroups filters regex =>
    have hp1 : gatherPositive o.scorerConfig.diacritics s
        ⟨raw, mode, terms, phrases, excludes, orGroups, f1, regex⟩ ≠ [] := by
      rw [gatherPositive_filters o.scorerConfig.diacritics s raw mode terms
        phrases excludes orGroups f1 filters regex]
      exact hpos
    have hp2 : gatherPositive o.scorerConfig.diacritics s
        ⟨raw, mode, terms, phrases, excludes, orGroups, f2, regex⟩ ≠ [] := by
      rw [gatherPositive_filters o.scorerConfig.diacritics s raw mode terms
        phrases excludes orGroups f2 filters regex]
      exact hpos
    have hgc : gatherCandidates o.scorerConfig.diacritics s
        ⟨raw, mode, terms, phrases, excludes, orGroups, f1, regex⟩ =
        gatherCandidates o.scorerConfig.diacritics s
          ⟨raw, mode, terms, phrases, excludes, orGroups, f2, regex⟩ := by
      rw [gatherCandidates_of_pos _ _ _ hp1, gatherCandidates_of_pos _ _ _ hp2]
      exact gatherPositive_filters _ _ _ _ _ _ _ _ f1 f2 _
    show queryStreamList engine o now s
        ⟨raw, mode, terms, phrases, excludes, orGroups, f1, regex⟩ limit =
      queryStreamList engine o now s
        ⟨raw, mode, terms, phrases, excludes, orGroups, f2, regex⟩ limit
    unfold queryStreamList
    simp only [hgc]
    rfl

/-- Claim C10: the provider never rejects a document for failing a
filter constraint — for a files-mode query whose ordinary terms or
or-groups yield a non-empty candidate set from the postings, both the
non-streaming query and the full streamed yield sequence are identical
for any two filter contents (tag, path, in, field). -/
theorem C10_filters_ignored (engine : RegexEngine) (o : ProviderOptions)
    (now : ℤ) (s : ProviderState) (q : ParsedQuery) (limit : ℕ)
    (f1 f2 : QueryFilters) (hmode : q.mode = .files)
    (hpos : gatherPositive o.scorerConfig.diacritics s q ≠ []) :
    queryOp engine o now s { q with filters := f1 } limit =
      queryOp engine o now s { q with filters := f2 } limit ∧
    queryStreamList engine o now s { q with filters := f1 } limit =
      queryStreamList engine o now s { q with filters := f2 } limit := by
  have hstream := queryStreamList_filters engine o now s q limit f1 f2 hpos
  refine ⟨?_, hstream⟩
  cases q with
  | mk raw mode terms phrases excludes orGroups filters regex =>
    show queryOp engine o now s
        ⟨raw, mode, terms, phrases, excludes, orGroups, f1, regex⟩ limit =
      queryOp engine o now s
        ⟨raw, mode, terms, phrases, excludes, orGroups, f2, regex⟩ limit
    unfold queryOp
    by_cases he : isEmptyQuery
        ⟨raw, mode, terms, phrases, excludes, orGroups, f1, regex⟩ = true
    · have he2 : isEmptyQuery
          ⟨raw, mode, terms, phrases, excludes, orGroups, f2, regex⟩ = true := he
      rw [if_pos he, if_pos he2]
    · have he2 : ¬ isEmptyQuery
          ⟨raw, mode, terms, phrases, excludes, orGroups, f2, regex⟩ = true := he
      rw [if_neg he, if_neg he2, hstream]

/-- The recency bonus is monotone non-decreasing in `mtime` for a
positive half-life. -/
theorem computeRecencyBonus_mono (now m1 m2 : ℤ) (half : ℝ)
    (hh : 0 < half) (hm : m1 ≤ m2) :
    computeRecencyBonus now m1 half ≤ computeRecencyBonus now m2 half := by
  unfold computeRecencyBonus
  have hlog : (0 : ℝ) ≤ Real.log 2 := (Real.log_pos (by norm_num)).le
  have hage : ((now - m2 : ℤ) : ℝ) ≤ ((now - m1 : ℤ) : ℝ) := by
    exact_mod_cast sub_le_sub_left hm now
  have hdiv : ((now - m2 : ℤ) : ℝ) / (1000 * 60 * 60 * 24) ≤
      ((now - m1 : ℤ) : ℝ) / (1000 * 60 * 60 * 24) := by
    gcongr
  have hexpo : -(((now - m1 : ℤ) : ℝ) / (1000 * 60 * 60 * 24)) *
      Real.log 2 / half ≤
      -(((now - m2 : ℤ) : ℝ) / (1000 * 60 * 60 * 24)) *
        Real.log 2 / half := by
    apply div_le_div_of_nonneg_right ?_ hh.le
    exact mul_le_mul_of_nonneg_right (neg_le_neg hdiv) hlog
  have hmul : (0.5 : ℝ) * Real.exp
      (-(((now - m1 : ℤ) : ℝ) / (1000 * 60 * 60 * 24)) * Real.log 2 / half) ≤
      0.5 * Real.exp
      (-(((now - m2 : ℤ) : ℝ) / (1000 * 60 * 60 * 24)) * Real.log 2 / half) :=
    mul_le_mul_of_nonneg_left (Real.exp_le_exp.mpr hexpo) (by norm_num)
  exact min_le_min (max_le_max hmul (le_refl 0)) (le_refl 0.5)

/-- For a positive half-life, a strictly more recent `mtime` gives a
strictly larger recency bonus — provided the older document lies in the
past (`m1 < now`), so that its bonus is strictly below the 0.5 cap. -/
theorem computeRecencyBonus_strict (now m1 m2 : ℤ) (half : ℝ)
    (hh : 0 < half) (hm : m1 < m2) (hpast : m1 < now) :
    computeRecencyBonus now m1 half < computeRecencyBonus now m2 half := by
  unfold computeRecencyBonus
  have hlog : (0 : ℝ) < Real.log 2 := Real.log_pos (by norm_num)
  have ha1 : (0 : ℝ) < ((now - m1 : ℤ) : ℝ) := by
    exact_mod_cast sub_pos.mpr hpast
  have hd1 : (0 : ℝ) < ((now - m1 : ℤ) : ℝ) / (1000 * 60 * 60 * 24) :=
    div_pos ha1 (by norm_num)
  have he1 : -(((now - m1 : ℤ) : ℝ) / (1000 * 60 * 60 * 24)) *
      Real.log 2 / half < 0 :=
    div_neg_of_neg_of_pos (mul_neg_of_neg_of_pos (neg_neg_of_pos hd1) hlog) hh
  have hu1lt : (0.5 : ℝ) * Real.exp
      (-(((now - m1 : ℤ) : ℝ) / (1000 * 60 * 60 * 24)) * Real.log 2 / half) <
      0.5 := by
    have := Real.exp_lt_one_iff.mpr he1
    nlinarith [this]
  have hdiv : ((now - m2 : ℤ) : ℝ) / (1000 * 60 * 60 * 24) <
      ((now - m1 : ℤ) : ℝ) / (1000 * 60 * 60 * 24) := by
    have : ((now - m2 : ℤ) : ℝ) < ((now - m1 : ℤ) : ℝ) := by
      exact_mod_cast sub_lt_sub_left hm now
    exact div_lt_div_of_pos_right this (by norm_num)
  have hexpo : -(((now - m1 : ℤ) : ℝ) / (1000 * 60 * 60 * 24)) *
      Real.log 2 / half <
      -(((now - m2 : ℤ) : ℝ) / (1000 * 60 * 60 * 24)) *
        Real.log 2 / half := by
    apply div_lt_div_of_pos_right ?_ hh
    exact mul_lt_mul_of_pos_right (neg_lt_neg hdiv) hlog
  have hu12 : (0.5 : ℝ) * Real.exp
      (-(((now - m1 : ℤ) : ℝ) / (1000 * 60 * 60 * 24)) * Real.log 2 / half) <
      0.5 * Real.exp
      (-(((now - m2 : ℤ) : ℝ) / (1000 * 60 * 60 * 24)) * Real.log 2 / half) :=
    mul_lt_mul_of_pos_left (Real.exp_lt_exp.mpr hexpo) (by norm_num)
  have hpos1 : (0 : ℝ) ≤ 0.5 * Real.exp
      (-(((now - m1 : ℤ) : ℝ) / (1000 * 60 * 60 * 24)) * Real.log 2 / half) := by
    positivity
  have hpos2 : (0 : ℝ) ≤ 0.5 * Real.exp
      (-(((now - m2 : ℤ) : ℝ) / (1000 * 60 * 60 * 24)) * Real.log 2 / half) := by
    positivity
  rw [max_eq_left hpos1, max_eq_left hpos2, min_eq_left hu1lt.le]
  exact lt_min hu12 hu1lt

/-- Score projection of an optional scored document (0 for a rejected
document). -/
noncomputable def scoreOf : Option ScoredDoc → ℝ
  | some r => r.score
  | none => 0

/-- Claim C9 (amended): for two documents identical except in `mtime`,
both accepted by the scorer, the more recent one's score is at least the
older one's whenever the recency weight is non-negative and the
half-life positive; the inequality is strict when the recency weight is
positive and the older document's modification time lies strictly in the
past (equivalently, its recency bonus is strictly below the 0.5 cap).
When both documents' bonuses reach the cap the scores are equal, so the
claim's strict inequality does not hold there. -/
theorem C9_recency_monotone (now : ℤ) (q : ParsedQuery)
    (c : ScorerConfig) (d : Doc) (m2 : ℤ)
    (hx : isExcluded d q.excludes c = false)
    (hw : 0 ≤ c.weights.recency) (hh : 0 < c.recencyHalfLife)
    (hm : d.mtime ≤ m2) :
    (scoreDoc now d q c).isSome = true ∧
    (scoreDoc now { d with mtime := m2 } q c).isSome = true ∧
    scoreOf (scoreDoc now d q c) ≤
      scoreOf (scoreDoc now { d with mtime := m2 } q c) ∧
    (0 < c.weights.recency → d.mtime < m2 → d.mtime < now →
      scoreOf (scoreDoc now d q c) <
        scoreOf (scoreDoc now { d with mtime := m2 } q c)) := by
  have hx2 : isExcluded { d with mtime := m2 } q.excludes c = false := hx
  have e1 : scoreDoc now d q c = some
      { doc := d
        score := (scoreFieldsAcc d q c).1 + scorePhrases d q.phrases c +
          c.weights.recency *
            computeRecencyBonus now d.mtime c.recencyHalfLife
        matchSpans := (scoreFieldsAcc d q c).2 } := by
    unfold scoreDoc
    rw [hx]
    rfl
  have e2 : scoreDoc now { d with mtime := m2 } q c = some
      { doc := { d with mtime := m2 }
        score := (scoreFieldsAcc d q c).1 + scorePhrases d q.phrases c +
          c.weights.recency * computeRecencyBonus now m2 c.recencyHalfLife
        matchSpans := (scoreFieldsAcc d q c).2 } := by
    unfold scoreDoc
    rw [hx2]
    rfl
  refine ⟨by rw [e1]; rfl, by rw [e2]; rfl, ?_, ?_⟩
  · rw [e1, e2]
    show _ + c.weights.recency * _ ≤ _ + c.weights.recency * _
    exact add_le_add_left (mul_le_mul_of_nonneg_left
      (computeRecencyBonus_mono now d.mtime m2 c.recencyHalfLife hh hm) hw) _
  · intro hwpos hlt hpast
    rw [e1, e2]
    show _ + c.weights.recency * _ < _ + c.weights.recency * _
    exact add_lt_add_left (mul_lt_mul_of_pos_left
      (computeRecencyBonus_strict now d.mtime m2 c.recencyHalfLife hh hlt
        hpast) hwpos) _

/-- A minimal document with `mtime = 0`. -/
def docW9 : Doc :=
  { id := js "t.md", title := [], path := [], tags := [], headings := []
    symbols := [], body := [], mtime := 0, size := 0 }

/-- The empty files-mode query. -/
def qEmpty9 : ParsedQuery :=
  { raw := [], mode := .files, terms := [], phrases := [], excludes := []
    orGroups := [], filters := {}, regex := none }

/-- Claim C9, witness: with the default configuration, a document one
day old scores no more than the same document freshly modified, and
strictly less since the older one lies in the past. -/
theorem C9_recency_monotone_witness :
    isExcluded docW9 qEmpty9.excludes DEFAULT_SCORER_CONFIG = false ∧
    ((scoreDoc 172800000 docW9 qEmpty9 DEFAULT_SCORER_CONFIG).isSome = true ∧
     (scoreDoc 172800000 { docW9 with mtime := 86400000 } qEmpty9
        DEFAULT_SCORER_CONFIG).isSome = true ∧
     scoreOf (scoreDoc 172800000 docW9 qEmpty9 DEFAULT_SCORER_CONFIG) ≤
       scoreOf (scoreDoc 172800000 { docW9 with mtime := 86400000 } qEmpty9
         DEFAULT_SCORER_CONFIG) ∧
     (0 < DEFAULT_SCORER_CONFIG.weights.recency → docW9.mtime < 86400000 →
       docW9.mtime < 172800000 →
       scoreOf (scoreDoc 172800000 docW9 qEmpty9 DEFAULT_SCORER_CONFIG) <
         scoreOf (scoreDoc 172800000 { docW9 with mtime := 86400000 }
           qEmpty9 DEFAULT_SCORER_CONFIG))) :=
  ⟨by decide,
   C9_recency_monotone 172800000 qEmpty9 DEFAULT_SCORER_CONFIG docW9
     86400000 (by decide) (by norm_num [DEFAULT_SCORER_CONFIG])
     (by norm_num [DEFAULT_SCORER_CONFIG]) (by decide)⟩

/-- At age zero the recency bonus sits exactly at the 0.5 cap. -/
theorem computeRecencyBonus_at_now :
    computeRecencyBonus 0 0 30 = 0.5 := by
  unfold computeRecencyBonus
  norm_num [Real.exp_zero]

/-- A future modification time also clamps to the 0.5 cap. -/
theorem computeRecencyBonus_future :
    computeRecencyBonus 0 86400000 30 = 0.5 := by
  unfold computeRecencyBonus
  have hcast : (((0 : ℤ) - 86400000 : ℤ) : ℝ) = -86400000 := by norm_num
  rw [hcast]
  have harg : -((-86400000 : ℝ) / (1000 * 60 * 60 * 24)) * Real.log 2 / 30 =
      Real.log 2 / 30 := by norm_num
  rw [harg]
  have h1 : (1 : ℝ) ≤ Real.exp (Real.log 2 / 30) :=
    Real.one_le_exp (div_nonneg (Real.log_nonneg (by norm_num)) (by norm_num))
  have hge : (0.5 : ℝ) ≤ 0.5 * Real.exp (Real.log 2 / 30) := by nlinarith
  rw [max_eq_left (by linarith)]
  exact min_eq_right hge

/-- Claim C9, counterexample: with the default configuration (recency
weight 0.5 > 0), a document modified exactly now and one modified a day
in the future both have recency bonus clamped to the 0.5 cap, so their
scores are equal — the claimed strict inequality fails when both
documents' bonuses reach the cap. -/
theorem C9_counterexample :
    docW9.mtime < (86400000 : ℤ) ∧
    (0 : ℝ) < DEFAULT_SCORER_CONFIG.weights.recency ∧
    scoreOf (scoreDoc 0 docW9 qEmpty9 DEFAULT_SCORER_CONFIG) =
      scoreOf (scoreDoc 0 { docW9 with mtime := 86400000 } qEmpty9
        DEFAULT_SCORER_CONFIG) ∧
    ¬ scoreOf (scoreDoc 0 docW9 qEmpty9 DEFAULT_SCORER_CONFIG) <
        scoreOf (scoreDoc 0 { docW9 with mtime := 86400000 } qEmpty9
          DEFAULT_SCORER_CONFIG) := by
  have hx : isExcluded docW9 qEmpty9.excludes DEFAULT_SCORER_CONFIG =
      false := by decide
  have hx2 : isExcluded { docW9 with mtime := (86400000 : ℤ) }
      qEmpty9.excludes DEFAULT_SCORER_CONFIG = false := hx
  have e1 : scoreDoc 0 docW9 qEmpty9 DEFAULT_SCORER_CONFIG = some
      { doc := docW9
        score := (scoreFieldsAcc docW9 qEmpty9 DEFAULT_SCORER_CONFIG).1 +
          scorePhrases docW9 qEmpty9.phrases DEFAULT_SCORER_CONFIG +
          DEFAULT_SCORER_CONFIG.weights.recency *
            computeRecencyBonus 0 docW9.mtime
              DEFAULT_SCORER_CONFIG.recencyHalfLife
        matchSpans := (scoreFieldsAcc docW9 qEmpty9
          DEFAULT_SCORER_CONFIG).2 } := by
    unfold scoreDoc
    rw [hx]
    rfl
  have e2 : scoreDoc 0 { docW9 with mtime := 86400000 } qEmpty9
      DEFAULT_SCORER_CONFIG = some
      { doc := { docW9 with mtime := (86400000 : ℤ) }
        score := (scoreFieldsAcc docW9 qEmpty9 DEFAULT_SCORER_CONFIG).1 +
          scorePhrases docW9 qEmpty9.phrases DEFAULT_SCORER_CONFIG +
          DEFAULT_SCORER_CONFIG.weights.recency *
            computeRecencyBonus 0 86400000
              DEFAULT_SCORER_CONFIG.recencyHalfLife
        matchSpans := (scoreFieldsAcc docW9 qEmpty9
          DEFAULT_SCORER_CONFIG).2 } := by
    unfold scoreDoc
    rw [hx2]
    rfl
  have hb : computeRecencyBonus 0 docW9.mtime
      DEFAULT_SCORER_CONFIG.recencyHalfLife =
      computeRecencyBonus 0 86400000
        DEFAULT_SCORER_CONFIG.recencyHalfLife := by
    show computeRecencyBonus 0 0 DEFAULT_SCORER_CONFIG.recencyHalfLife = _
    have hhl : DEFAULT_SCORER_CONFIG.recencyHalfLife = 30 := by
      norm_num [DEFAULT_SCORER_CONFIG]
    rw [hhl, computeRecencyBonus_at_now, computeRecencyBonus_future]
  have heq : scoreOf (scoreDoc 0 docW9 qEmpty9 DEFAULT_SCORER_CONFIG) =
      scoreOf (scoreDoc 0 { docW9 with mtime := 86400000 } qEmpty9
        DEFAULT_SCORER_CONFIG) := by
    rw [e1, e2]
    unfold scoreOf
    rw [hb]
  exact ⟨by decide, by norm_num [DEFAULT_SCORER_CONFIG], heq,
    by rw [heq]; exact lt_irrefl _⟩

/-- Scorer weights of the C1/C2 failing corpus: field weights as in the
default configuration, recency weight 0 (a legal configuration, chosen
so scores are determined by the phrase bonus alone). -/
noncomputable def cexW : ScorerWeights :=
  { title := 4, headings := 2, path := 1.5, tags := 1.5, symbols := 1.5
    body := 1, recency := 0 }

/-- Scorer configuration of the failing corpus. -/
noncomputable def cexCfg : ScorerConfig :=
  { weights := cexW, diacritics := true, recencyHalfLife := 30 }

/-- Provider options of the failing corpus (constructor defaults apart
from the scorer configuration). -/
noncomputable def cexOpts : ProviderOptions := { scorerConfig := cexCfg }

/-- The string `ab` repeated `n` times. -/
def abRep (n : ℕ) : JStr := (List.replicate n ['a', 'b']).flatten

/-- First scoring document: 4 phrase occurrences, score 1. -/
def docD1 : Doc :=
  { id := js "d01", title := [], path := [], tags := [], headings := []
    symbols := [], body := abRep 4, mtime := 0, size := 0 }

/-- Second scoring document: 8 phrase occurrences, score 2. -/
def docD2 : Doc :=
  { id := js "d02", title := [], path := [], tags := [], headings := []
    symbols := [], body := abRep 8, mtime := 0, size := 0 }

/-- Third scoring document (processed 101st): 12 occurrences, score 3. -/
def docE1 : Doc :=
  { id := js "e01", title := [], path := [], tags := [], headings := []
    symbols := [], body := abRep 12, mtime := 0, size := 0 }

/-- Fourth scoring document (processed 102nd): 16 occurrences, score 4. -/
def docE2 : Doc :=
  { id := js "e02", title := [], path := [], tags := [], headings := []
    symbols := [], body := abRep 16, mtime := 0, size := 0 }

/-- Id of the i-th filler document. -/
def tId (i : ℕ) : JStr := 't' :: (toString i).toList

/-- Filler document with empty content (score 0, never pushed into the
heap, but counted by the progressive-yield counter). -/
def trivDoc (i : ℕ) : Doc :=
  { id := tId i, title := [], path := [], tags := [], headings := []
    symbols := [], body := [], mtime := 0, size := 0 }

/-- The 102-document corpus: two scoring documents, 98 fillers, then
two higher-scoring documents. -/
def cexDocs : List Doc :=
  [docD1, docD2] ++ (List.range 98).map trivDoc ++ [docE1, docE2]

/-- Provider state of the failing corpus, built through `indexAll`. -/
noncomputable def cexState : ProviderState :=
  (indexAllOp cexOpts emptyState cexDocs).2

/-- The phrase query `"ab"` (no terms, no regex). -/
def cexQ : ParsedQuery :=
  { raw := '"' :: 'a' :: 'b' :: ['"'], mode := .files, terms := []
    phrases := [['a', 'b']], excludes := [], orGroups := [], filters := {}
    regex := none }

/-- Document store of the failing corpus: `indexAll` of 102 fresh ids
stores one metadata entry per document, in order. -/
theorem cexState_docs :
    cexState.docs = cexDocs.map (fun d => (d.id, mkDocMetadata cexOpts d)) := by
  decide

/-- The positive (terms / or-groups) stage of the failing corpus' query
is empty: the query has no terms and no or-groups. -/
theorem cexPositive :
    gatherPositive cexOpts.scorerConfig.diacritics cexState cexQ = [] := rfl

/-- Candidate ids of the failing corpus: the phrase fallback of
`gatherCandidates` returns every stored document id in insertion
order. -/
theorem cexCandidates :
    gatherCandidates cexOpts.scorerConfig.diacritics cexState cexQ =
      cexDocs.map Doc.id := by
  have h2 : ¬(cexState.docs.map Prod.fst = [] ∧
      (cexQ.filters.tag ≠ [] ∨ cexQ.filters.path ≠ [] ∨
        cexQ.filters.infolder ≠ [])) := by
    rintro ⟨-, h⟩
    revert h
    decide
  have hpp : ([] : List JStr) = [] ∧ cexQ.phrases ≠ [] := ⟨rfl, by decide⟩
  simp only [gatherCandidates]
  rw [cexPositive]
  rw [if_pos hpp]
  rw [if_neg h2]
  rw [cexState_docs, List.map_map]
  rfl

/-- `scoreField` with no query terms is the zero field score. -/
theorem scoreField_no_terms (fv : JStr ⊕ List JStr) (c : ScorerConfig) :
    scoreField fv [] c = { score := 0, spans := [], field := .body } := by
  unfold scoreField
  rw [if_pos rfl]

/-- With no query terms the weighted field-score accumulation of
`scoreDoc` contributes no score and no spans. -/
theorem scoreFieldsAcc_cex (d : Doc) :
    scoreFieldsAcc d cexQ cexCfg = (0, []) := by
  have ht : cexQ.terms = [] := rfl
  simp [scoreFieldsAcc, fieldResultsOf, ht, scoreField_no_terms]

/-- Phrase bonus of the query `"ab"` on a document with an empty title:
0.25 per occurrence of `ab` in the normalized body. -/
theorem scorePhrases_cex (d : Doc) (n : ℕ)
    (ht : countOccurrences (normalizeText ['a', 'b'] cexCfg.diacritics)
        (normalizeText d.title cexCfg.diacritics) = 0)
    (hb : countOccurrences (normalizeText ['a', 'b'] cexCfg.diacritics)
        (normalizeText d.body cexCfg.diacritics) = n) :
    scorePhrases d cexQ.phrases cexCfg = (n : ℝ) * 0.25 := by
  have hph : cexQ.phrases = [['a', 'b']] := rfl
  simp only [scorePhrases, hph]
  rw [if_neg (by decide : ¬([['a', 'b']] : List JStr) = [])]
  simp only [List.foldl_cons, List.foldl_nil]
  rw [ht, hb]
  push_cast
  ring

/-- `scoreDoc` on the failing corpus' query: no term contribution, no
recency contribution (the corpus' recency weight is 0), so the score is
the phrase bonus alone and there are no match spans. -/
theorem scoreDoc_cex (d : Doc) (n : ℕ)
    (ht : countOccurrences (normalizeText ['a', 'b'] cexCfg.diacritics)
        (normalizeText d.title cexCfg.diacritics) = 0)
    (hb : countOccurrences (normalizeText ['a', 'b'] cexCfg.diacritics)
        (normalizeText d.body cexCfg.diacritics) = n) :
    scoreDoc 0 d cexQ cexCfg =
      some { doc := d, score := (n : ℝ) * 0.25, matchSpans := [] } := by
  have hx : ¬(isExcluded d cexQ.excludes cexCfg = true) := by
    have h0 : isExcluded d cexQ.excludes cexCfg = false := rfl
    simp [h0]
  unfold scoreDoc
  rw [if_neg hx]
  rw [scoreFieldsAcc_cex, scorePhrases_cex d n ht hb]
  have hrec : cexCfg.weights.recency = (0 : ℝ) := rfl
  rw [hrec]
  have h1 : ((0 : ℝ), ([] : List MatchSpan)).1 = 0 := rfl
  have h2 : ((0 : ℝ), ([] : List MatchSpan)).2 = [] := rfl
  rw [h1, h2, zero_add, zero_mul, add_zero]

/-- Score of `docD1`: 4 phrase occurrences, score 1. -/
theorem scoreDoc_docD1 :
    scoreDoc 0 docD1 cexQ cexCfg =
      some { doc := docD1, score := 1, matchSpans := [] } := by
  rw [scoreDoc_cex docD1 4 rfl rfl]
  norm_num

/-- Score of `docD2`: 8 phrase occurrences, score 2. -/
theorem scoreDoc_docD2 :
    scoreDoc 0 docD2 cexQ cexCfg =
      some { doc := docD2, score := 2, matchSpans := [] } := by
  rw [scoreDoc_cex docD2 8 rfl rfl]
  norm_num

/-- Score of `docE1`: 12 phrase occurrences, score 3. -/
theorem scoreDoc_docE1 :
    scoreDoc 0 docE1 cexQ cexCfg =
      some { doc := docE1, score := 3, matchSpans := [] } := by
  rw [scoreDoc_cex docE1 12 rfl rfl]
  norm_num

/-- Score of `docE2`: 16 phrase occurrences, score 4. -/
theorem scoreDoc_docE2 :
    scoreDoc 0 docE2 cexQ cexCfg =
      some { doc := docE2, score := 4, matchSpans := [] } := by
  rw [scoreDoc_cex docE2 16 rfl rfl]
  norm_num

/-- Score of every filler document: empty fields, score 0. -/
theorem scoreDoc_triv (i : ℕ) :
    scoreDoc 0 (trivDoc i) cexQ cexCfg =
      some { doc := trivDoc i, score := ((0 : ℕ) : ℝ) * 0.25,
             matchSpans := [] } :=
  scoreDoc_cex (trivDoc i) 0 rfl rfl

/-- The search-result comparator of `createSearchResultHeap`. -/
noncomputable def cexCmp : SearchResult → SearchResult → ℝ :=
  fun a b => a.score - b.score

/-- Search result of `docD1`. -/
noncomputable def rD1 : SearchResult :=
  { id := js "d01", score := 1, matchSpans := [] }

/-- Search result of `docD2`. -/
noncomputable def rD2 : SearchResult :=
  { id := js "d02", score := 2, matchSpans := [] }

/-- Search result of `docE1`. -/
noncomputable def rE1 : SearchResult :=
  { id := js "e01", score := 3, matchSpans := [] }

/-- Search result of `docE2`. -/
noncomputable def rE2 : SearchResult :=
  { id := js "e02", score := 4, matchSpans := [] }

/-- Metadata lookup of `docD1` in the corpus state. -/
theorem cexLookup_d01 :
    mapGet cexState.docs (js "d01") = some (mkDocMetadata cexOpts docD1) := by
  rw [cexState_docs]; rfl

/-- Metadata lookup of `docD2` in the corpus state. -/
theorem cexLookup_d02 :
    mapGet cexState.docs (js "d02") = some (mkDocMetadata cexOpts docD2) := by
  rw [cexState_docs]; rfl

/-- Metadata lookup of `docE1` in the corpus state. -/
theorem cexLookup_e01 :
    mapGet cexState.docs (js "e01") = some (mkDocMetadata cexOpts docE1) := by
  rw [cexState_docs]; rfl

/-- Metadata lookup of `docE2` in the corpus state. -/
theorem cexLookup_e02 :
    mapGet cexState.docs (js "e02") = some (mkDocMetadata cexOpts docE2) := by
  rw [cexState_docs]; rfl

/-- Metadata lookup of every filler document in the corpus state. -/
theorem cexLookup_triv : ∀ i ∈ List.range 98,
    mapGet cexState.docs (tId i) =
      some (mkDocMetadata cexOpts (trivDoc i)) := by
  simp only [cexState_docs]
  decide

/-- One candidate-loop step on a positively scored document away from a
yield point: push the result into the heap and count the candidate. -/
theorem processCandidate_push (st : StreamState) (docId : JStr)
    (md : DocMetadata) (sd : ScoredDoc) (r : SearchResult)
    (hmd : mapGet cexState.docs docId = some md)
    (hsd : scoreDoc 0 md.doc cexQ cexCfg = some sd)
    (hr : ({ id := docId, score := sd.score,
             matchSpans := sd.matchSpans } : SearchResult) = r)
    (hpos : sd.score > 0)
    (hcnt : ¬((st.processedCount + 1) % 100 = 0)) :
    processCandidate cexOpts 0 cexState cexQ 2 st docId =
      { st with heap := (st.heap.push r).2,
                processedCount := st.processedCount + 1 } := by
  have hco : cexOpts.scorerConfig = cexCfg := rfl
  unfold processCandidate
  rw [hmd]
  dsimp only []
  rw [hco, hsd]
  dsimp only []
  rw [if_pos hpos, hr]
  split
  next hcond => exact absurd hcond.1 hcnt
  next => rfl

/-- One candidate-loop step on a filler document away from a yield
point: nothing enters the heap, only the counter moves. -/
theorem processCandidate_noop (st : StreamState) (i : ℕ)
    (hmd : mapGet cexState.docs (tId i) =
      some (mkDocMetadata cexOpts (trivDoc i)))
    (hcnt : ¬((st.processedCount + 1) % 100 = 0)) :
    processCandidate cexOpts 0 cexState cexQ 2 st (tId i) =
      { st with processedCount := st.processedCount + 1 } := by
  have hco : cexOpts.scorerConfig = cexCfg := rfl
  have hdoc : (mkDocMetadata cexOpts (trivDoc i)).doc = trivDoc i := rfl
  unfold processCandidate
  rw [hmd]
  dsimp only []
  rw [hco, hdoc, scoreDoc_triv i]
  dsimp only []
  rw [if_neg (by norm_num : ¬(((0 : ℕ) : ℝ) * 0.25 > 0))]
  split
  next hcond => exact absurd hcond.1 hcnt
  next => rfl

/-- First heap push: `rD1` into the empty heap of capacity 2. -/
theorem cexPush1 :
    MinHeap.push { items := [], maxSize := 2, cmp := cexCmp } rD1 =
      (true, { items := [rD1], maxSize := 2, cmp := cexCmp }) := by
  unfold MinHeap.push
  rw [if_neg (by decide)]
  simp only [List.length_nil, List.nil_append, heapifyUp]

/-- Second heap push: `rD2` bubbles up nowhere (2 − 1 ≥ 0). -/
theorem cexPush2 :
    MinHeap.push { items := [rD1], maxSize := 2, cmp := cexCmp } rD2 =
      (true, { items := [rD1, rD2], maxSize := 2, cmp := cexCmp }) := by
  unfold MinHeap.push
  rw [if_neg (by decide)]
  have h1 : heapifyUp cexCmp [rD1, rD2] 1 = [rD1, rD2] := by
    simp only [heapifyUp, List.get?_cons_succ, List.get?_cons_zero,
      Nat.zero_div]
    rw [if_pos (by norm_num [cexCmp, rD1, rD2] : cexCmp rD2 rD1 ≥ 0)]
  simp only [List.cons_append, List.nil_append]
  rw [show List.length [rD1] = 1 from rfl]
  rw [h1]

/-- Push at capacity: `rE1` (score 3) evicts the minimum `rD1`
(score 1) and sifts down below `rD2`. -/
theorem cexPushE1 :
    MinHeap.push { items := [rD1, rD2], maxSize := 2, cmp := cexCmp } rE1 =
      (true, { items := [rD2, rE1], maxSize := 2, cmp := cexCmp }) := by
  norm_num [MinHeap.push, heapifyDown, heapifyDownAux, heapifyUp, listSwap,
    cexCmp, rD1, rD2, rE1, List.get?_cons_succ, List.get?_cons_zero,
    List.get?_nil]

/-- Push at capacity: `rE2` (score 4) evicts the minimum `rD2`
(score 2) and sifts down below `rE1`. -/
theorem cexPushE2 :
    MinHeap.push { items := [rD2, rE1], maxSize := 2, cmp := cexCmp } rE2 =
      (true, { items := [rE1, rE2], maxSize := 2, cmp := cexCmp }) := by
  norm_num [MinHeap.push, heapifyDown, heapifyDownAux, heapifyUp, listSwap,
    cexCmp, rD2, rE1, rE2, List.get?_cons_succ, List.get?_cons_zero,
    List.get?_nil]

/-- Extraction of the final heap: ascending comparator order. -/
theorem cexExtract :
    MinHeap.extractAll { items := [rE1, rE2], maxSize := 2, cmp := cexCmp } =
      [rE1, rE2] := by
  norm_num [MinHeap.extractAll, extractAllAux, MinHeap.pop, heapifyDown,
    heapifyDownAux, listSwap, cexCmp, rE1, rE2, List.get?_cons_succ,
    List.get?_cons_zero, List.get?_nil, List.getLast?]

/-- Intermediate-yield sort of the heap contents, score-descending. -/
theorem cexSortTop :
    jsSortBy (fun a b => b.score - a.score) [rD1, rD2] = [rD2, rD1] := by
  norm_num [jsSortBy, jsSortedInsert, rD1, rD2]

/-- Candidate-loop run over filler documents, entirely between yield
points: only the processed-candidate counter moves. -/
theorem fillerRun (ids : List ℕ) (st : StreamState)
    (hmem : ∀ i ∈ ids, i < 98)
    (hcnt : ∀ k, k < ids.length →
      ¬((st.processedCount + k + 1) % 100 = 0)) :
    List.foldl (processCandidate cexOpts 0 cexState cexQ 2) st
      (ids.map tId) =
      { st with processedCount := st.processedCount + ids.length } := by
  induction ids generalizing st with
  | nil => rfl
  | cons i rest ih =>
    dsimp only [List.map_cons, List.foldl_cons, List.length_cons]
    rw [processCandidate_noop st i
      (cexLookup_triv i (List.mem_range.mpr (hmem i (List.mem_cons_self i rest))))
      (hcnt 0 (by simp only [List.length_cons]; omega))]
    rw [ih { st with processedCount := st.processedCount + 1 }
      (fun j hj => hmem j (List.mem_cons_of_mem _ hj))
      (fun k hk => by
        have h2 := hcnt (k + 1) (by simp only [List.length_cons]; omega)
        dsimp only []
        omega)]
    cases st with
    | mk h y p o =>
      dsimp only []
      congr 1
      omega

/-- The 100th processed candidate (filler 97) triggers the progressive
yield: the top `min(5, ⌊2/2⌋) = 1` heap results — just `rD2` — are
yielded. -/
theorem processCandidate_yield :
    processCandidate cexOpts 0 cexState cexQ 2
      { heap := { items := [rD1, rD2], maxSize := 2, cmp := cexCmp },
        yieldedIds := [], processedCount := 99, out := [] } (tId 97) =
      { heap := { items := [rD1, rD2], maxSize := 2, cmp := cexCmp },
        yieldedIds := [js "d02"], processedCount := 100, out := [rD2] } := by
  have hco : cexOpts.scorerConfig = cexCfg := rfl
  have hdoc : (mkDocMetadata cexOpts (trivDoc 97)).doc = trivDoc 97 := rfl
  have hmd := cexLookup_triv 97 (by decide)
  unfold processCandidate
  rw [hmd]
  dsimp only []
  rw [hco, hdoc, scoreDoc_triv 97]
  dsimp only []
  rw [if_neg (by norm_num : ¬(((0 : ℕ) : ℝ) * 0.25 > 0))]
  rw [if_pos (⟨by decide, by decide⟩ :
    (99 + 1) % 100 = 0 ∧
      MinHeap.size { items := [rD1, rD2], maxSize := 2, cmp := cexCmp } > 0)]
  dsimp only [MinHeap.toArray]
  rw [cexSortTop]
  rw [show (min 5 (2 / 2) : ℕ) = 1 by decide]
  simp only [List.take_succ_cons, List.take_zero, List.foldl_cons,
    List.foldl_nil]
  rw [if_neg (by decide : ¬(List.contains ([] : List JStr) rD2.id = true))]
  rfl

/-- Full evaluation of the streamed run on the failing corpus: the
progressive yield emits `rD2` (score 2) at the 100th candidate, and the
final heap drain appends `rE2` (score 4) then `rE1` (score 3). -/
theorem cexStreamEq :
    queryStreamList alwaysValidEngine cexOpts 0 cexState cexQ 2 =
      [rD2, rE2, rE1] := by
  have hie : ¬(isEmptyQuery cexQ = true) := by decide
  simp only [queryStreamList]
  rw [if_neg hie]
  rw [cexCandidates]
  rw [show cexDocs.map Doc.id =
      js "d01" :: js "d02" ::
        ((List.range 97).map tId ++
          (tId 97 :: js "e01" :: js "e02" :: [])) from by decide]
  rw [show createSearchResultHeap 2 =
      { items := [], maxSize := 2, cmp := cexCmp } from rfl]
  rw [List.foldl_cons,
    processCandidate_push _ _ _ _ rD1 cexLookup_d01 scoreDoc_docD1 rfl
      (by norm_num) (by decide)]
  dsimp only []
  rw [cexPush1]
  rw [List.foldl_cons,
    processCandidate_push _ _ _ _ rD2 cexLookup_d02 scoreDoc_docD2 rfl
      (by norm_num) (by decide)]
  dsimp only []
  rw [cexPush2]
  rw [List.foldl_append]
  rw [fillerRun (List.range 97) _
    (fun i hi => by have := List.mem_range.mp hi; omega)
    (fun k hk => by
      simp only [List.length_range] at hk
      dsimp only []
      omega)]
  simp only [List.length_range]
  rw [show (0 + 1 + 1 + 97 : ℕ) = 99 from by norm_num]
  rw [List.foldl_cons, processCandidate_yield]
  rw [List.foldl_cons,
    processCandidate_push _ _ _ _ rE1 cexLookup_e01 scoreDoc_docE1 rfl
      (by norm_num) (by decide)]
  dsimp only []
  rw [cexPushE1]
  rw [List.foldl_cons,
    processCandidate_push _ _ _ _ rE2 cexLookup_e02 scoreDoc_docE2 rfl
      (by norm_num) (by decide)]
  dsimp only []
  rw [cexPushE2]
  rw [List.foldl_nil]
  dsimp only []
  rw [cexExtract]
  rw [show cexQ.regex = (none : Option RegexSpec) from rfl]
  dsimp only []
  rw [show List.reverse [rE1, rE2] = [rE2, rE1] from by
    simp [List.reverse_cons]]
  rw [show List.filter
      (fun r => !(List.contains [js "d02"] r.id)) [rE2, rE1] =
      [rE2, rE1] from by
    rw [List.filter_cons_of_pos (by decide),
      List.filter_cons_of_pos (by decide), List.filter_nil]]
  rfl

/-- Non-streaming `query` on the failing corpus: it collects the
stream's yields in order and breaks at `limit = 2`, so it returns the
early yield `rD2` (score 2) and `rE2` (score 4) — and never reaches
`rE1` (score 3). -/
theorem cexQueryEq :
    queryOp alwaysValidEngine cexOpts 0 cexState cexQ 2 = [rD2, rE2] := by
  unfold queryOp
  rw [if_neg (by decide : ¬(isEmptyQuery cexQ = true))]
  rw [cexStreamEq]
  norm_num [collectBreakAux]

/-- Claim C1 is FALSE on this corpus: the non-streaming `query` result
is not sorted by score in descending order.  With 102 candidates the
implementation routes `query` through `queryStream`; the progressive
yield at the 100th candidate emits the then-best result `rD2`
(score 2), `query` collects yields in order and breaks at the limit, so
the returned list is `[score 2, score 4]` — ascending, not
descending. -/
theorem C1_query_descending_violated :
    (queryOp alwaysValidEngine cexOpts 0 cexState cexQ 2).map
        SearchResult.score = [2, 4] ∧
    ¬ List.Sorted (fun a b : ℝ => a ≥ b)
        ((queryOp alwaysValidEngine cexOpts 0 cexState cexQ 2).map
          SearchResult.score) := by
  have h : (queryOp alwaysValidEngine cexOpts 0 cexState cexQ 2).map
      SearchResult.score = [2, 4] := by
    rw [cexQueryEq]
    norm_num [rD2, rE2]
  refine ⟨h, ?_⟩
  rw [h]
  intro hs
  have h24 := (List.sorted_cons.mp hs).1 4 (by simp)
  norm_num at h24

/-- Claim C2 is FALSE on this corpus: the set of ids yielded by the
full streaming run is not the set of ids returned by the non-streaming
`query`.  The stream yields `d02` early (progressive yield at the 100th
candidate) and later the final heap contents `e02` and `e01`; `query`
breaks at `limit = 2` after `[d02, e02]`, so the id `e01` is yielded by
the stream but absent from the `query` result. -/
theorem C2_stream_query_membership_differs :
    js "e01" ∈ (queryStreamList alwaysValidEngine cexOpts 0 cexState
        cexQ 2).map SearchResult.id ∧
    ¬ js "e01" ∈ (queryOp alwaysValidEngine cexOpts 0 cexState
        cexQ 2).map SearchResult.id := by
  constructor
  · rw [cexStreamEq]
    decide
  · rw [cexQueryEq]
    decide

/-- Document carrying the term `hello` (but no `work` tag). -/
def docX : Doc :=
  { id := js "x.md", title := js "hello", path := [], tags := []
    headings := [], symbols := [], body := js "hello world", mtime := 0
    size := 1 }

/-- Provider state holding just `docX`. -/
noncomputable def s10 : ProviderState :=
  (indexAllOp defaultOpts emptyState [docX]).2

/-- Files-mode query `hello` (term only, no filters yet). -/
def q10 : ParsedQuery :=
  { raw := js "hello tag:work", mode := .files, terms := [js "hello"]
    phrases := [], excludes := [], orGroups := [], filters := {}
    regex := none }

/-- The `tag:work` filter contents. -/
def f10b : QueryFilters := { tag := [js "work"] }

/-- Witness for claim C10: the term `hello` yields a non-empty positive
candidate set over `s10`, and the query results with no filters and
with `tag:work` are identical (even though `docX` has no tags). -/
theorem C10_filters_ignored_witness :
    q10.mode = .files ∧
    gatherPositive defaultOpts.scorerConfig.diacritics s10 q10 ≠ [] ∧
    (queryOp alwaysValidEngine defaultOpts 0 s10
        { q10 with filters := {} } 10 =
      queryOp alwaysValidEngine defaultOpts 0 s10
        { q10 with filters := f10b } 10 ∧
    queryStreamList alwaysValidEngine defaultOpts 0 s10
        { q10 with filters := {} } 10 =
      queryStreamList alwaysValidEngine defaultOpts 0 s10
        { q10 with filters := f10b } 10) :=
  ⟨rfl, by decide,
   C10_filters_ignored alwaysValidEngine defaultOpts 0 s10 q10 10 {} f10b
     rfl (by decide)⟩
